import Mathlib

/-!
# Verification of the MATS analysis-workflow orchestrator

Shallow embedding of `src/backend/main.py`: the per-tool adapters
(`run_jadx`, `run_apktool`, `run_quark`, `run_androguard`), the workflow
orchestrator `run_analysis_workflow`, and the in-memory status store
records (`AnalysisStatus`).

External effects (tool availability probing, `subprocess.run` outcomes,
filesystem checks, JSON parsing) are supplied as environment data; the
embedding maps each environment to the exact value the Python code
computes.  Python exceptions are modelled with `Except`: `throw` is a
raised exception, and each `try/except` block is translated to an
explicit handler on the `Except` value.

Python's progress computation `int(((idx + 1) / total_tools) * 100)` is
performed in IEEE-754 binary64 arithmetic.  We model binary64 values
exactly as dyadic rationals `m * 2^e` and the two arithmetic steps
(`int / int` true division, `float * int` multiplication) as correct
rounding to 53 significant bits with round-to-nearest, ties-to-even —
which is exactly what CPython does for these operations.  The model uses
an unbounded exponent range, i.e. it ignores binary64 overflow and
gradual underflow; both are unreachable here for any tool list of
physically realisable length (the quotients involved lie between
`1/n` and `100`).
-/

/-! ## Binary64 model (exact dyadic arithmetic)

All computations are on natural-number pairs `(a, b)` denoting the
positive rational `a / b`, so that every definition reduces in the
kernel (`decide`).  ℚ appears only in the correctness lemmas. -/

/-- Number of bits of `n`, computed with explicit fuel (structural
recursion, so that the kernel can evaluate it).  `bitLen` instantiates
the fuel with `n` itself, which always suffices. -/
def bitLenAux : Nat → Nat → Nat
  | 0, _ => 0
  | fuel + 1, n => if n = 0 then 0 else bitLenAux fuel (n / 2) + 1

/-- Bit length of a natural number: `0` for `0`, and otherwise the unique
`L` with `2^(L-1) ≤ n < 2^L`. -/
def bitLen (n : Nat) : Nat := bitLenAux n n

/-- Does the positive rational `a / b` satisfy `2^d ≤ a / b`? -/
def qgeTwoPow (a b : Nat) (d : Int) : Bool :=
  if 0 ≤ d then decide (b * 2 ^ d.toNat ≤ a) else decide (b ≤ a * 2 ^ (-d).toNat)

/-- Binary exponent of the positive rational `a / b`: the unique `e` with
`2^e ≤ a / b < 2^(e+1)`. -/
def qexpN (a b : Nat) : Int :=
  let d : Int := (bitLen a : Int) - (bitLen b : Int)
  if qgeTwoPow a b d then d else d - 1

/-- Round the positive rational `a / b` to 53 significant bits
(round-to-nearest, ties-to-even).  Returns `(m, e)` denoting the dyadic
rational `m * 2^e`; for `1 ≤ a, b` the significand `m` satisfies
`2^52 ≤ m ≤ 2^53`. -/
def round53N (a b : Nat) : Nat × Int :=
  let e := qexpN a b
  let sh : Int := 52 - e
  let a' := if 0 ≤ sh then a * 2 ^ sh.toNat else a
  let b' := if 0 ≤ sh then b else b * 2 ^ (-sh).toNat
  let q := a' / b'
  let r := a' % b'
  let m := if 2 * r < b' then q else if b' < 2 * r then q + 1
           else if q % 2 = 0 then q else q + 1
  (m, e - 52)

/-- The exact product of the binary64 value `m * 2^e` with the integer
`100`, as a positive-rational pair (numerator, denominator); feeding it
to `round53N` performs the correctly rounded binary64 multiplication. -/
def py100Args (d : Nat × Int) : Nat × Nat :=
  (if 0 ≤ d.2 then d.1 * 100 * 2 ^ d.2.toNat else d.1 * 100,
   if 0 ≤ d.2 then 1 else 2 ^ (-d.2).toNat)

/-- Python `int(x)` on the nonnegative binary64 value `m * 2^e`:
truncation toward zero (= floor here). -/
def pyTrunc (d : Nat × Int) : Nat :=
  if 0 ≤ d.2 then d.1 * 2 ^ d.2.toNat else d.1 / 2 ^ (-d.2).toNat

/-- The value of Python's `int(((k) / (n)) * 100)` for integers
`k ≥ 1, n ≥ 1`: binary64 true division, binary64 multiplication by the
exact constant `100`, then truncation toward zero (= floor, as all
values are positive). -/
def pyProgressN (k n : Nat) : Nat :=
  pyTrunc (round53N (py100Args (round53N k n)).1 (py100Args (round53N k n)).2)

/-- Python's `int(((idx + 1) / total_tools) * 100)` raises
`ZeroDivisionError` when `total_tools = 0`; otherwise it yields
`pyProgressN`.  (In `run_analysis_workflow` the expression only occurs
inside the per-tool loop body, so the divisor is the length of a
non-empty list there.) -/
def pyProgressE (k n : Nat) : Except String Nat :=
  if n = 0 then .error "ZeroDivisionError: division by zero"
  else .ok (pyProgressN k n)

/-! ## Subprocess outcomes and Python exceptions

`subprocess.run` either completes (returncode/stdout/stderr), raises
`subprocess.TimeoutExpired`, or raises some other exception.  A raised
exception is a `throw`; `str(e)` is the carried message. -/

structure ProcResult where
  returncode : Int
  stdout : String
  stderr : String
deriving DecidableEq, Repr

inductive ProcOutcome where
  | completed (r : ProcResult)
  | timedOut (msg : String)
  | raised (msg : String)
deriving DecidableEq, Repr

inductive PyExn where
  | timeoutExpired (msg : String)
  | other (msg : String)
deriving DecidableEq, Repr

/-- Python `str(e)` on a caught exception. -/
def PyExn.str : PyExn → String
  | .timeoutExpired m => m
  | .other m => m

def subprocessRun : ProcOutcome → Except PyExn ProcResult
  | .completed r => .ok r
  | .timedOut m => .error (.timeoutExpired m)
  | .raised m => .error (.other m)

/-! ## Tool results

Each constructor is one literal dict shape returned by an adapter in
`main.py`.  `error` carries the "error" key (and the optional "details"
key used by the quark setup failure); the `success*` constructors carry
the fields of the respective `"status": "success"` dicts; `pending` is
the `"status": "pending"` dict of the unautomatable tools. -/

inductive ToolResult where
  | error (message : String) (details : Option String)
  | successDir (output_dir : String) (message : String)
  | successApktool (output_dir : String) (manifest_exists : Bool) (message : String)
  | successQuark (threats : List String) (score : Int) (message : String)
  | successQuarkRaw (raw_output : String) (message : String)
  | successOutput (output : String) (message : String)
  | pending (message : String)
deriving DecidableEq, Repr

/-- Python `"error" in result`. -/
def ToolResult.hasError : ToolResult → Bool
  | .error _ _ => true
  | _ => false

/-- Python `result["error"]` (meaningful only when `hasError`). -/
def ToolResult.errMsg : ToolResult → String
  | .error m _ => m
  | _ => ""

def ToolResult.isPending : ToolResult → Bool
  | .pending _ => true
  | _ => false

/-- `try: ... except Exception as e: return {"error": str(e)}` around an
adapter body: every exception value is converted to an error dict. -/
def pyCatchAll (body : Except PyExn ToolResult) : Except PyExn ToolResult :=
  match body with
  | .ok r => .ok r
  | .error e => .ok (.error e.str none)

/-! ## Adapters (`run_jadx`, `run_apktool`, `run_quark`, `run_androguard`)

The ToolLocator probes (`get_tool_path`, `check_tool_available`,
`shutil.which`) and the filesystem checks are environment data — the
spec treats them as external collaborators.  Each adapter returns
`Except PyExn ToolResult`: `.ok` is a normal Python `return`, `.error`
would be an escaping exception. -/

structure JadxEnv where
  /-- `get_tool_path("jadx")` -/
  toolPath : String
  /-- `check_tool_available("jadx")` -/
  available : Bool
  /-- `shutil.which("jadx")` -/
  whichJadx : Option String
  proc : ProcOutcome
deriving DecidableEq, Repr

def run_jadx (env : JadxEnv) (_apk_path output_dir : String) : Except PyExn ToolResult :=
  pyCatchAll (do
    if env.available = false then
      return .error "JADX not found. Please install JADX." none
    if env.toolPath = "jadx" ∧ env.whichJadx = none then
      return .error "JADX not found in PATH. Please install JADX or restart the backend." none
    let result ← subprocessRun env.proc
    if result.returncode = 0 then
      return .successDir output_dir "Decompilation completed"
    else
      return .error ("JADX failed: " ++ result.stderr) none)

structure ApktoolEnv where
  /-- `check_tool_available("apktool")` -/
  available : Bool
  proc : ProcOutcome
  /-- `(output_dir / "AndroidManifest.xml").exists()` -/
  manifestExists : Bool
deriving DecidableEq, Repr

def run_apktool (env : ApktoolEnv) (_apk_path output_dir : String) : Except PyExn ToolResult :=
  pyCatchAll (do
    if env.available = false then
      return .error "APKTool not found. Please install APKTool." none
    let result ← subprocessRun env.proc
    if result.returncode = 0 then
      return .successApktool output_dir env.manifestExists "APK decoded successfully"
    else
      return .error ("APKTool failed: " ++ result.stderr) none)

structure QuarkEnv where
  /-- `check_tool_available("quark")` -/
  available : Bool
  /-- `rules_path.exists()` before setup -/
  rulesExist : Bool
  /-- outcome of `subprocess.run(["quark", "--setup"], ..., timeout=180)` -/
  setupProc : ProcOutcome
  /-- `rules_path.exists()` re-checked after setup -/
  rulesExistAfterSetup : Bool
  /-- outcome of the scan `subprocess.run(..., timeout=300)` -/
  scanProc : ProcOutcome
  /-- `json.loads(result.stdout)` with `.get("threats", [])` and
  `.get("score", 0)` applied; `none` when parsing raised (bare `except`) -/
  jsonParsed : Option (List String × Int)
deriving DecidableEq, Repr

def run_quark (env : QuarkEnv) (_apk_path : String) : Except PyExn ToolResult :=
  pyCatchAll (do
    if env.available = false then
      return .error "Quark Engine not found. Install with: pip install quark-engine" none
    if env.rulesExist = false then
      -- inner try with `except TimeoutExpired` and `except Exception` handlers,
      -- each returning from the function
      match subprocessRun env.setupProc with
      | .ok setup =>
        if setup.returncode ≠ 0 ∨ env.rulesExistAfterSetup = false then
          return .error
            "Quark rules are missing and automatic setup failed. Run `quark --setup` manually to download rules."
            (some (if setup.stderr = "" then setup.stdout else setup.stderr))
      | .error (.timeoutExpired _) =>
        return .error "Quark rules download timed out. Run `quark --setup` manually." none
      | .error (.other m) =>
        return .error ("Failed to prepare Quark rules: " ++ m ++ ". Run `quark --setup` manually.") none
    let result ← subprocessRun env.scanProc
    if result.returncode = 0 then
      match env.jsonParsed with
      | some (threats, score) => return .successQuark threats score "Quark analysis completed"
      | none => return .successQuarkRaw result.stdout "Quark analysis completed"
    else
      return .error ("Quark failed: " ++ result.stderr) none)

structure AndroEnv where
  /-- `check_tool_available("androguard")` -/
  available : Bool
  proc : ProcOutcome
deriving DecidableEq, Repr

def run_androguard (env : AndroEnv) (_apk_path : String) : Except PyExn ToolResult :=
  pyCatchAll (do
    if env.available = false then
      return .error "AndroGuard not found. Install with: pip install androguard" none
    -- inner `try ... except subprocess.TimeoutExpired` around the run;
    -- other exceptions propagate to the outer handler
    match subprocessRun env.proc with
    | .error (.timeoutExpired _) =>
      return .error "AndroGuard timed out after 600 seconds. The APK may be very large or complex." none
    | .error e => throw e
    | .ok result =>
      if result.returncode = 0 then
        return .successOutput result.stdout "AndroGuard analysis completed"
      else
        return .error ("AndroGuard failed: " ++ (if result.stderr = "" then result.stdout else result.stderr)) none)

/-! ## Status records and the workflow orchestrator

`AnalysisStatus` is the status-store record.  The Python code fetches
the record object from the global dict and mutates its fields in place
(`analysis_status[apk_id] = status` re-inserts the very same object), so
the store reflects every single field assignment immediately.  We model
the run as the sequence of record states after each field assignment
(`trace`), tagging each entry with the field written; `Mut.obs` entries
mark the points where the driving task yields control — the
`await asyncio.sleep(0.5)` at the end of each loop iteration and the
task's termination — which are the only points at which another asyncio
task (a polling reader) can run, plus the initial record visible before
the task starts. -/

/- The `apk_id` field of `AnalysisStatus` (a constant equal to the
job's key in the store, set once at upload and never written again) is
omitted from the record model. -/
structure JobRecord where
  status : String
  progress : Nat
  current_tool : Option String
  results : Option (List (String × ToolResult))
  error : Option String
deriving DecidableEq, Repr

/-- The record created by `upload_apk`:
`AnalysisStatus(apk_id=..., status="pending", progress=0)`. -/
def uploadRecord : JobRecord :=
  { status := "pending", progress := 0, current_tool := none,
    results := none, error := none }

/-- Which field a trace entry wrote (`obs` = a yield point where a
reader may observe the record). -/
inductive Mut where
  | mstatus | mprogress | mcurrent | mresults | merror | obs
deriving DecidableEq, Repr

/-- Python dict assignment `d[k] = v`: replaces in place, keeping the
original insertion position, or appends a new entry. -/
def dinsert (k : String) (v : ToolResult) :
    List (String × ToolResult) → List (String × ToolResult)
  | [] => [(k, v)]
  | (k', v') :: rest =>
    if k' = k then (k', v) :: rest else (k', v') :: dinsert k v rest

/-- Per-iteration environments for the four real adapters. -/
structure ToolEnvs where
  jadx : JadxEnv
  apktool : ApktoolEnv
  quark : QuarkEnv
  andro : AndroEnv
deriving DecidableEq, Repr

/-- Effect of one arm of the orchestrator's per-tool dispatch:
the dict entry recorded under the tool's name, whether the tool was
appended to `tools_with_actual_analysis` / `unknown_tools`, and whether
`has_critical_errors` was set. -/
structure DispatchOut where
  recorded : ToolResult
  isAnalysis : Bool
  isUnknown : Bool
  critical : Bool
deriving DecidableEq, Repr

def fridaMsg : String :=
  "Frida requires device connection. Use objection for runtime analysis."

def mitmMsg : String :=
  "MITMProxy requires active proxy setup. Configure manually for network analysis."

/-- A recognised adapter's invocation, as seen by the orchestrator's
`try`: a returned dict is recorded (with `has_critical_errors` set when
it carries an "error" key); an escaping exception hits
`except Exception as e: results[tool] = {"error": str(e)}` and skips the
`tools_with_actual_analysis.append`. -/
def adapterRecord (res : Except PyExn ToolResult) : DispatchOut :=
  match res with
  | .ok r => ⟨r, true, false, r.hasError⟩
  | .error e => ⟨.error e.str none, false, false, true⟩

/-- The `if tool == ... elif ... else` dispatch of
`run_analysis_workflow` for one tool name. -/
def dispatch (te : ToolEnvs) (apkId tool : String) : DispatchOut :=
  let apkPath := "uploads/" ++ apkId ++ ".apk"
  let outputBase := "results/" ++ apkId
  if tool = "jadx" then
    adapterRecord (run_jadx te.jadx apkPath (outputBase ++ "/jadx_output"))
  else if tool = "apktool" then
    adapterRecord (run_apktool te.apktool apkPath (outputBase ++ "/apktool_output"))
  else if tool = "quark" then
    adapterRecord (run_quark te.quark apkPath)
  else if tool = "androguard" then
    adapterRecord (run_androguard te.andro apkPath)
  else if tool = "frida" then
    ⟨.pending fridaMsg, false, false, false⟩
  else if tool = "mitmproxy" then
    ⟨.pending mitmMsg, false, false, false⟩
  else
    ⟨.error ("Unknown tool: " ++ tool) none, false, true, true⟩

/-- The orchestrator's loop state: the (shared, in-place mutated) store
record, the local variables of `run_analysis_workflow`, the mutation
trace, and a ghost `log` listing the result recorded at each iteration
in order (an entry may later be overwritten in `results` by a duplicate
tool name, but never disappears from the log). -/
structure LoopSt where
  record : JobRecord
  results : List (String × ToolResult)
  hasCrit : Bool
  unknown : List String
  twa : List String
  log : List (String × ToolResult)
  trace : List (JobRecord × Mut)
deriving DecidableEq, Repr

/-- One iteration of `for idx, tool in enumerate(tools)`: write
`current_tool`, dispatch, write the float-computed progress, then yield
at `await asyncio.sleep(0.5)`. -/
def stepTool (te : ToolEnvs) (apkId : String) (n idx : Nat) (tool : String)
    (st : LoopSt) : Except String LoopSt := do
  let r1 := { st.record with current_tool := some tool }
  let d := dispatch te apkId tool
  let p ← pyProgressE (idx + 1) n
  let r2 := { r1 with progress := p }
  return { record := r2
           results := dinsert tool d.recorded st.results
           hasCrit := st.hasCrit || d.critical
           unknown := st.unknown ++ (if d.isUnknown then [tool] else [])
           twa := st.twa ++ (if d.isAnalysis then [tool] else [])
           log := st.log ++ [(tool, d.recorded)]
           trace := st.trace ++ [(r1, .mcurrent), (r2, .mprogress), (r2, .obs)] }

def loopTools (te : Nat → ToolEnvs) (apkId : String) (n : Nat) :
    Nat → List String → LoopSt → Except String LoopSt
  | _, [], st => .ok st
  | idx, t :: ts, st => do
    loopTools te apkId n (idx + 1) ts (← stepTool (te idx) apkId n idx t st)

def pendingOnlyTools : List String := ["frida", "mitmproxy"]

def noAnalysisMsg : String :=
  "No actual analysis was performed. Selected tools (frida, mitmproxy) require external setup and cannot run automatically."

/-- `f"{tool}: {result['error']}"` for every entry of `results` whose
dict has an "error" key, in insertion order. -/
def errorSegments (results : List (String × ToolResult)) : List String :=
  (results.filter (fun p => p.2.hasError)).map (fun p => p.1 ++ ": " ++ p.2.errMsg)

/-- The aggregated error string of the `has_critical_errors` branch:
an "Unknown tools: ..." summary segment when any tool was unrecognised,
then one "tool: message" segment per error entry of the results dict in
insertion order, joined with "; "; a fixed fallback when the list is
empty. -/
def errJoin (unknown : List String) (results : List (String × ToolResult)) : String :=
  let msgs :=
    (if unknown ≠ [] then
      ["Unknown tools: " ++ String.intercalate ", " unknown] else [])
    ++ errorSegments results
  if msgs = [] then "Analysis failed with errors" else String.intercalate "; " msgs

/-- The post-loop finalisation: force progress to 100, clear
current_tool, classify the terminal status, and attach the results dict.
The task then ends (terminal `obs` entry). -/
def finishSt (tools : List String) (st : LoopSt) : LoopSt :=
  let ra := { st.record with progress := 100 }
  let rb := { ra with current_tool := none }
  if st.twa = [] ∧ tools.all (fun t => t ∈ pendingOnlyTools) then
    let rc := { rb with status := "failed" }
    let rd := { rc with error := some noAnalysisMsg }
    let rr := { rd with results := some st.results }
    { st with
      record := rr,
      trace := st.trace ++ [(ra, .mprogress), (rb, .mcurrent), (rc, .mstatus),
                            (rd, .merror), (rr, .mresults), (rr, .obs)] }
  else if st.hasCrit then
    let rc := { rb with status := "failed" }
    let rd := { rc with error := some (errJoin st.unknown st.results) }
    let rr := { rd with results := some st.results }
    { st with
      record := rr,
      trace := st.trace ++ [(ra, .mprogress), (rb, .mcurrent), (rc, .mstatus),
                            (rd, .merror), (rr, .mresults), (rr, .obs)] }
  else
    let rc := { rb with status := "completed" }
    let rr := { rc with results := some st.results }
    { st with
      record := rr,
      trace := st.trace ++ [(ra, .mprogress), (rb, .mcurrent), (rc, .mstatus),
                            (rr, .mresults), (rr, .obs)] }

/-- Workflow entry: the record fetched from the store (it must exist,
else the function returns immediately — callers here always pass it),
set to `processing` with progress 0; the initial record itself is
observable before the task first runs. -/
def initSt (r0 : JobRecord) : LoopSt :=
  let r1 := { r0 with status := "processing" }
  let r2 := { r1 with progress := 0 }
  { record := r2, results := [], hasCrit := false, unknown := [], twa := [],
    log := [], trace := [(r0, .obs), (r1, .mstatus), (r2, .mprogress)] }

/-- `run_analysis_workflow(apk_id, apk_path, tools)` for a job whose
store record is `r0`.  A `.error` would be an uncaught runtime error
escaping the task (the only candidate: `ZeroDivisionError` from the
progress computation). -/
def run_analysis_workflow (te : Nat → ToolEnvs) (apkId : String)
    (tools : List String) (r0 : JobRecord) : Except String LoopSt := do
  return finishSt tools (← loopTools te apkId tools.length 0 tools (initSt r0))

/-! Derived views of a run, used by the claims. -/

/-- The record states a polling reader can observe. -/
def obsOf (tr : List (JobRecord × Mut)) : List JobRecord :=
  (tr.filter (fun p => p.2 = Mut.obs)).map (fun p => p.1)

/-- The successive values written to the `progress` field. -/
def progressWritesOf (tr : List (JobRecord × Mut)) : List Nat :=
  (tr.filter (fun p => p.2 = Mut.mprogress)).map (fun p => p.1.progress)

/-- Keys of a results dict, in insertion order. -/
def dkeys (l : List (String × ToolResult)) : List String := l.map (fun p => p.1)

/-- The four tool names the orchestrator dispatches to a real adapter. -/
def automatableTools : List String := ["jadx", "apktool", "quark", "androguard"]

/-- An all-unavailable environment (every probe fails); used for
concrete evaluations. -/
def defToolEnvs : ToolEnvs :=
  { jadx := { toolPath := "jadx", available := false, whichJadx := none,
              proc := .completed ⟨1, "", ""⟩ }
    apktool := { available := false, proc := .completed ⟨1, "", ""⟩,
                 manifestExists := false }
    quark := { available := false, rulesExist := false,
               setupProc := .completed ⟨1, "", ""⟩,
               rulesExistAfterSetup := false,
               scanProc := .completed ⟨1, "", ""⟩, jsonParsed := none }
    andro := { available := false, proc := .completed ⟨1, "", ""⟩ } }

instance {ε α : Type} [DecidableEq ε] [DecidableEq α] : DecidableEq (Except ε α)
  | .ok a, .ok b => decidable_of_iff (a = b) (by simp)
  | .error a, .error b => decidable_of_iff (a = b) (by simp)
  | .ok _, .error _ => isFalse (by simp)
  | .error _, .ok _ => isFalse (by simp)


/-! ## Specification-side definitions used by the lemmas and claims -/

/-- The rational value of a dyadic pair `(m, e)`. -/
def dval (p : Nat × Int) : ℚ := (p.1 : ℚ) * 2 ^ p.2

/-- Nearest integer to `s`, ties to even — the rounding of the
significand performed by `round53N`, expressed on ℚ. -/
def neQ (s : ℚ) : ℤ :=
  if s - ⌊s⌋ < 1 / 2 then ⌊s⌋
  else if 1 / 2 < s - ⌊s⌋ then ⌊s⌋ + 1
  else if ⌊s⌋ % 2 = 0 then ⌊s⌋ else ⌊s⌋ + 1

/-- The consistent per-tool snapshots of a first run: after the `k`-th
tool (0-based `idx`), status `processing`, the float-computed progress,
`current_tool` set, and no results/error attached. -/
def specObs (n : Nat) : Nat → List String → List JobRecord
  | _, [] => []
  | idx, t :: ts =>
    { status := "processing", progress := pyProgressN (idx + 1) n,
      current_tool := some t, results := none, error := none }
      :: specObs n (idx + 1) ts

/-- The loop state after processing only the first `i` tools (with the
divisor fixed to the full list's length, as in the source). -/
def stAfter (te : Nat → ToolEnvs) (apkId : String) (tools : List String)
    (r0 : JobRecord) (i : Nat) : Except String LoopSt :=
  loopTools te apkId tools.length 0 (tools.take i) (initSt r0)

/-- Companion to the loop: the trace entries contributed by processing
`ts` from index `idx` starting at record `r` (divisor `n`). -/
def tracePiece (te : Nat → ToolEnvs) (apkId : String) (n : Nat) :
    Nat → JobRecord → List String → List (JobRecord × Mut)
  | _, _, [] => []
  | idx, r, t :: ts =>
    let r1 := { r with current_tool := some t }
    let r2 := { r1 with progress := pyProgressN (idx + 1) n }
    (r1, .mcurrent) :: (r2, .mprogress) :: (r2, .obs)
      :: tracePiece te apkId n (idx + 1) r2 ts

/-- Companion to the loop: the record after processing `ts`. -/
def recAfter (n : Nat) : Nat → JobRecord → List String → JobRecord
  | _, r, [] => r
  | idx, r, t :: ts =>
    recAfter n (idx + 1)
      { r with current_tool := some t, progress := pyProgressN (idx + 1) n } ts

/-- Companion to the loop: the (tool, recorded result) pairs, one per
iteration, in order. -/
def logOf (te : Nat → ToolEnvs) (apkId : String) :
    Nat → List String → List (String × ToolResult)
  | _, [] => []
  | idx, t :: ts => (t, (dispatch (te idx) apkId t).recorded) :: logOf te apkId (idx + 1) ts

/-- Companion to the loop: the `unknown_tools` list. -/
def unkOf (te : Nat → ToolEnvs) (apkId : String) : Nat → List String → List String
  | _, [] => []
  | idx, t :: ts =>
    (if (dispatch (te idx) apkId t).isUnknown then [t] else []) ++ unkOf te apkId (idx + 1) ts

/-- Companion to the loop: the `tools_with_actual_analysis` list. -/
def twaOf (te : Nat → ToolEnvs) (apkId : String) : Nat → List String → List String
  | _, [] => []
  | idx, t :: ts =>
    (if (dispatch (te idx) apkId t).isAnalysis then [t] else []) ++ twaOf te apkId (idx + 1) ts

/-- Replay a sequence of dict assignments. -/
def dinsertAll (l : List (String × ToolResult)) (init : List (String × ToolResult)) :
    List (String × ToolResult) :=
  l.foldl (fun acc p => dinsert p.1 p.2 acc) init

/-- Closed form of the loop state reached by `run_analysis_workflow`
after the per-tool loop (proved equal to the run in `loopTools_spec` /
`run_analysis_workflow_eq`). -/
def wfLoopSt (te : Nat → ToolEnvs) (apkId : String) (tools : List String)
    (r0 : JobRecord) : LoopSt :=
  { record := recAfter tools.length 0 (initSt r0).record tools
    results := dinsertAll (logOf te apkId 0 tools) []
    hasCrit := (logOf te apkId 0 tools).any (fun p => p.2.hasError)
    unknown := unkOf te apkId 0 tools
    twa := twaOf te apkId 0 tools
    log := logOf te apkId 0 tools
    trace := (initSt r0).trace ++ tracePiece te apkId tools.length 0 (initSt r0).record tools }

/-! ## Correctness of the binary64 model -/

theorem bitLenAux_zero (fuel : Nat) : bitLenAux fuel 0 = 0 := by
  cases fuel <;> simp [bitLenAux]

theorem bitLenAux_spec : ∀ fuel n, n ≤ fuel → 1 ≤ n →
    2 ^ (bitLenAux fuel n - 1) ≤ n ∧ n < 2 ^ bitLenAux fuel n := by
  intro fuel
  induction fuel with
  | zero => intro n hn h1; omega
  | succ fuel ih =>
    intro n hn h1
    have hne : ¬ n = 0 := by omega
    rw [bitLenAux, if_neg hne]
    by_cases h2 : n / 2 = 0
    · have hn1 : n = 1 := by omega
      subst hn1
      simp [bitLenAux_zero]
    · have hle : n / 2 ≤ fuel := by
        have := Nat.div_lt_self (by omega : 0 < n) (by omega : 1 < 2)
        omega
      obtain ⟨hL1, hL2⟩ := ih (n / 2) hle (by omega)
      have hLpos : 1 ≤ bitLenAux fuel (n / 2) := by
        by_contra hc
        have h0 : bitLenAux fuel (n / 2) = 0 := by omega
        rw [h0] at hL2
        simp at hL2
        omega
      obtain ⟨l, hl⟩ : ∃ l, bitLenAux fuel (n / 2) = l + 1 :=
        ⟨bitLenAux fuel (n / 2) - 1, by omega⟩
      rw [hl] at hL1 hL2
      rw [hl]
      simp only [Nat.add_sub_cancel] at hL1 ⊢
      have p1 : (2:Nat) ^ (l + 1) = 2 * 2 ^ l := by ring
      have p2 : (2:Nat) ^ (l + 1 + 1) = 2 * (2 * 2 ^ l) := by ring
      rw [p1] at hL2
      rw [p1, p2]
      omega

theorem bitLen_spec (n : Nat) (h1 : 1 ≤ n) :
    2 ^ (bitLen n - 1) ≤ n ∧ n < 2 ^ bitLen n :=
  bitLenAux_spec n n le_rfl h1

theorem bitLen_pos (n : Nat) (h1 : 1 ≤ n) : 1 ≤ bitLen n := by
  rcases bitLen_spec n h1 with ⟨-, h⟩
  by_contra hc
  have h0 : bitLen n = 0 := by omega
  rw [h0] at h
  simp at h
  omega

theorem qgeTwoPow_iff (a b : Nat) (d : Int) (hb : 1 ≤ b) :
    qgeTwoPow a b d = true ↔ (2:ℚ) ^ d ≤ (a:ℚ) / b := by
  have hb0 : (0:ℚ) < b := by exact_mod_cast hb
  unfold qgeTwoPow
  rw [le_div_iff hb0]
  split_ifs with hd
  · have hdt : ((d.toNat : ℕ) : Int) = d := Int.toNat_of_nonneg hd
    have hpw : (2:ℚ) ^ d = ((2 ^ d.toNat : ℕ) : ℚ) := by
      conv_lhs => rw [← hdt]
      rw [zpow_natCast]
      push_cast
      ring
    have key : (2:ℚ) ^ d * b = ((b * 2 ^ d.toNat : Nat) : ℚ) := by
      rw [hpw]
      push_cast
      ring
    rw [decide_eq_true_iff, key, Nat.cast_le]
  · push_neg at hd
    have hdt : (((-d).toNat : ℕ) : Int) = -d := Int.toNat_of_nonneg (by omega)
    have hpow : (0:ℚ) < 2 ^ ((-d).toNat : ℕ) := by positivity
    have key : ((2:ℚ) ^ d * b ≤ a) ↔ (2:ℚ) ^ d * b * 2 ^ ((-d).toNat : ℕ) ≤ a * 2 ^ ((-d).toNat : ℕ) :=
      (mul_le_mul_right hpow).symm
    have collapse : (2:ℚ) ^ d * (b:ℚ) * 2 ^ ((-d).toNat : ℕ) = b := by
      rw [← zpow_natCast (2:ℚ) ((-d).toNat), hdt]
      rw [mul_comm ((2:ℚ) ^ d) (b:ℚ), mul_assoc, ← zpow_add₀ (two_ne_zero)]
      simp
    rw [decide_eq_true_iff, key, collapse]
    constructor
    · intro h
      calc (b : ℚ) ≤ ((a * 2 ^ (-d).toNat : Nat) : ℚ) := by exact_mod_cast h
        _ = (a:ℚ) * 2 ^ ((-d).toNat : ℕ) := by push_cast; ring
    · intro h
      have : (b : ℚ) ≤ ((a * 2 ^ (-d).toNat : Nat) : ℚ) := by
        calc (b : ℚ) ≤ (a:ℚ) * 2 ^ ((-d).toNat : ℕ) := h
          _ = ((a * 2 ^ (-d).toNat : Nat) : ℚ) := by push_cast; ring
      exact_mod_cast this

theorem qexpN_spec (a b : Nat) (ha : 1 ≤ a) (hb : 1 ≤ b) :
    (2:ℚ) ^ qexpN a b ≤ (a:ℚ) / b ∧ (a:ℚ) / b < 2 ^ (qexpN a b + 1) := by
  obtain ⟨ha1, ha2⟩ := bitLen_spec a ha
  obtain ⟨hb1, hb2⟩ := bitLen_spec b hb
  have hap := bitLen_pos a ha
  have hbp := bitLen_pos b hb
  have ha0 : (0:ℚ) < a := by exact_mod_cast ha
  have hb0 : (0:ℚ) < b := by exact_mod_cast hb
  have A1 : (2:ℚ) ^ (bitLen a - 1 : ℕ) ≤ a := by exact_mod_cast ha1
  have A2 : (a:ℚ) < 2 ^ (bitLen a : ℕ) := by exact_mod_cast ha2
  have B1 : (2:ℚ) ^ (bitLen b - 1 : ℕ) ≤ b := by exact_mod_cast hb1
  have B2 : (b:ℚ) < 2 ^ (bitLen b : ℕ) := by exact_mod_cast hb2
  have hcast : ∀ m : ℕ, 1 ≤ m → (2:ℚ) ^ (m - 1 : ℕ) = 2 ^ ((m:ℤ) - 1) := by
    intro m hm
    rw [← zpow_natCast]
    congr 1
    omega
  have hcast2 : ∀ m : ℕ, (2:ℚ) ^ (m : ℕ) = 2 ^ ((m:ℤ)) := fun m => (zpow_natCast 2 m).symm
  have hub : (a:ℚ)/b < 2 ^ ((bitLen a : ℤ) - (bitLen b : ℤ) + 1) := by
    calc (a:ℚ)/b < 2 ^ (bitLen a : ℕ) / 2 ^ (bitLen b - 1 : ℕ) :=
          div_lt_div A2 B1 (by positivity) (by positivity)
      _ = 2 ^ ((bitLen a : ℤ) - (bitLen b : ℤ) + 1) := by
          rw [hcast2, hcast _ hbp, ← zpow_sub₀ (two_ne_zero)]
          congr 1
          ring
  have hlb : (2:ℚ) ^ ((bitLen a : ℤ) - (bitLen b : ℤ) - 1) < (a:ℚ)/b := by
    calc (2:ℚ) ^ ((bitLen a : ℤ) - (bitLen b : ℤ) - 1)
        = 2 ^ (bitLen a - 1 : ℕ) / 2 ^ (bitLen b : ℕ) := by
          rw [hcast _ hap, hcast2, ← zpow_sub₀ (two_ne_zero)]
          congr 1
          ring
      _ < (a:ℚ)/b := div_lt_div' A1 B2 ha0 hb0
  have hiff := qgeTwoPow_iff a b ((bitLen a : ℤ) - (bitLen b : ℤ)) hb
  simp only [qexpN]
  split_ifs with h
  · exact ⟨hiff.mp h, hub⟩
  · constructor
    · exact le_of_lt hlb
    · have hnot : ¬ (2:ℚ) ^ ((bitLen a : ℤ) - (bitLen b : ℤ)) ≤ (a:ℚ)/b := by
        intro hle
        exact h (hiff.mpr hle)
      have := lt_of_not_le hnot
      calc (a:ℚ)/b < 2 ^ ((bitLen a : ℤ) - (bitLen b : ℤ)) := this
        _ = 2 ^ ((bitLen a : ℤ) - (bitLen b : ℤ) - 1 + 1) := by
          congr 1
          ring

theorem floor_natCast_div (A B : Nat) (hB : 1 ≤ B) :
    ⌊(A:ℚ)/(B:ℚ)⌋ = ((A / B : ℕ) : ℤ) := by
  have hb0 : (0:ℚ) < B := by exact_mod_cast hB
  have h1 := Nat.div_add_mod A B
  have h2 := Nat.mod_lt A (show 0 < B by omega)
  rw [Int.floor_eq_iff]
  constructor
  · rw [le_div_iff₀ hb0]
    push_cast
    exact_mod_cast Nat.div_mul_le_self A B
  · rw [div_lt_iff₀ hb0, Int.cast_natCast]
    have h3 : A < B * (A / B) + B := by omega
    have h4 : (A:ℚ) < ((B * (A / B) + B : ℕ) : ℚ) := by exact_mod_cast h3
    calc (A:ℚ) < ((B * (A / B) + B : ℕ) : ℚ) := h4
      _ = (((A / B : ℕ) : ℚ) + 1) * B := by push_cast; ring

theorem frac_natCast_div (A B : Nat) (hB : 1 ≤ B) :
    (A:ℚ)/B - (⌊(A:ℚ)/B⌋ : ℚ) = ((A % B : ℕ) : ℚ) / B := by
  have hbne : (B:ℚ) ≠ 0 := by
    have : (0:ℚ) < B := by exact_mod_cast hB
    exact ne_of_gt this
  have key : (A:ℚ) = (B:ℚ) * ((A / B : ℕ) : ℚ) + ((A % B : ℕ) : ℚ) := by
    exact_mod_cast (Nat.div_add_mod A B).symm
  rw [floor_natCast_div A B hB, Int.cast_natCast]
  rw [key, add_div, mul_div_cancel_left₀ _ hbne]
  ring

theorem nearest_div (A B : Nat) (hB : 1 ≤ B) :
    ((if 2 * (A % B) < B then A / B
      else if B < 2 * (A % B) then A / B + 1
      else if (A / B) % 2 = 0 then A / B else A / B + 1 : ℕ) : ℤ)
    = neQ ((A:ℚ) / B) := by
  have hb0 : (0:ℚ) < B := by exact_mod_cast hB
  have hfl := floor_natCast_div A B hB
  have hfr := frac_natCast_div A B hB
  have cq1 : ((A:ℚ)/B - (⌊(A:ℚ)/B⌋ : ℚ) < 1/2) ↔ (2 * (A % B) < B) := by
    rw [hfr, div_lt_div_iff₀ hb0 (by norm_num : (0:ℚ) < 2)]
    constructor
    · intro h
      have h2 : (A % B) * 2 < 1 * B := by exact_mod_cast h
      omega
    · intro h
      have h2 : (A % B) * 2 < 1 * B := by omega
      exact_mod_cast h2
  have cq2 : ((1:ℚ)/2 < (A:ℚ)/B - (⌊(A:ℚ)/B⌋ : ℚ)) ↔ (B < 2 * (A % B)) := by
    rw [hfr, div_lt_div_iff₀ (by norm_num : (0:ℚ) < 2) hb0]
    constructor
    · intro h
      have : 1 * B < (A % B) * 2 := by exact_mod_cast h
      omega
    · intro h
      have : 1 * B < (A % B) * 2 := by omega
      exact_mod_cast this
  have cq3 : (⌊(A:ℚ)/B⌋ % 2 = 0) ↔ ((A / B) % 2 = 0) := by
    rw [hfl]
    omega
  simp only [neQ, cq1, cq2, cq3]
  split_ifs <;> rw [hfl] <;> push_cast <;> ring

theorem neQ_bounds (s : ℚ) : ⌊s⌋ ≤ neQ s ∧ neQ s ≤ ⌊s⌋ + 1 := by
  unfold neQ
  split_ifs <;> omega

theorem neQ_mono {s t : ℚ} (h : s ≤ t) : neQ s ≤ neQ t := by
  have hf : ⌊s⌋ ≤ ⌊t⌋ := Int.floor_mono h
  rcases eq_or_lt_of_le hf with heq | hlt
  · unfold neQ
    rw [← heq]
    split_ifs <;> first | omega | linarith
  · have h1 := (neQ_bounds s).2
    have h2 := (neQ_bounds t).1
    omega

theorem neQ_ge {s : ℚ} (c : ℤ) (h : (c:ℚ) ≤ s) : c ≤ neQ s := by
  have h1 := (neQ_bounds s).1
  have hc : c ≤ ⌊s⌋ := Int.le_floor.mpr h
  omega

theorem neQ_le_of_lt {s : ℚ} (c : ℤ) (h : s < (c:ℚ)) : neQ s ≤ c := by
  have h1 := (neQ_bounds s).2
  have hc : ⌊s⌋ < c := Int.floor_lt.mpr h
  omega

theorem round53N_spec (a b : Nat) (ha : 1 ≤ a) (hb : 1 ≤ b) :
    ∃ m : Nat, round53N a b = (m, qexpN a b - 52) ∧
      (m : ℤ) = neQ ((a:ℚ)/b * 2 ^ ((52:ℤ) - qexpN a b)) := by
  have hb0 : (0:ℚ) < b := by exact_mod_cast hb
  simp only [round53N]
  by_cases hs : (0:ℤ) ≤ 52 - qexpN a b
  · simp only [if_pos hs]
    refine ⟨_, rfl, ?_⟩
    have hdt : (((52 - qexpN a b).toNat : ℕ) : ℤ) = 52 - qexpN a b :=
      Int.toNat_of_nonneg hs
    have harg : ((a * 2 ^ (52 - qexpN a b).toNat : ℕ) : ℚ) / b
        = (a:ℚ)/b * 2 ^ ((52:ℤ) - qexpN a b) := by
      calc ((a * 2 ^ (52 - qexpN a b).toNat : ℕ) : ℚ) / b
          = (a:ℚ)/b * 2 ^ ((52 - qexpN a b).toNat : ℕ) := by push_cast; ring
        _ = (a:ℚ)/b * 2 ^ ((52:ℤ) - qexpN a b) := by
            rw [← zpow_natCast (2:ℚ) (52 - qexpN a b).toNat, hdt]
    have hnd := nearest_div (a * 2 ^ (52 - qexpN a b).toNat) b hb
    rw [harg] at hnd
    exact hnd
  · simp only [if_neg hs]
    refine ⟨_, rfl, ?_⟩
    have hsneg : (0:ℤ) ≤ -(52 - qexpN a b) := by omega
    have hdt : (((-(52 - qexpN a b)).toNat : ℕ) : ℤ) = -(52 - qexpN a b) :=
      Int.toNat_of_nonneg hsneg
    have hB0 : 0 < b * 2 ^ (-(52 - qexpN a b)).toNat := by positivity
    have hBpos : 1 ≤ b * 2 ^ (-(52 - qexpN a b)).toNat := hB0
    have h2 : (2:ℚ) ^ ((52:ℤ) - qexpN a b)
        = ((2:ℚ) ^ ((-(52 - qexpN a b)).toNat : ℕ))⁻¹ := by
      rw [← zpow_natCast (2:ℚ) (-(52 - qexpN a b)).toNat, hdt, zpow_neg, inv_inv]
    have harg : ((a : ℕ) : ℚ) / ((b * 2 ^ (-(52 - qexpN a b)).toNat : ℕ) : ℚ)
        = (a:ℚ)/b * 2 ^ ((52:ℤ) - qexpN a b) := by
      calc ((a : ℕ) : ℚ) / ((b * 2 ^ (-(52 - qexpN a b)).toNat : ℕ) : ℚ)
          = (a:ℚ) / ((b:ℚ) * 2 ^ ((-(52 - qexpN a b)).toNat : ℕ)) := by push_cast; ring_nf
        _ = (a:ℚ)/b / 2 ^ ((-(52 - qexpN a b)).toNat : ℕ) := by rw [div_div]
        _ = (a:ℚ)/b * ((2:ℚ) ^ ((-(52 - qexpN a b)).toNat : ℕ))⁻¹ := by
            rw [div_eq_mul_inv]
        _ = (a:ℚ)/b * 2 ^ ((52:ℤ) - qexpN a b) := by rw [h2]
    have hnd := nearest_div a (b * 2 ^ (-(52 - qexpN a b)).toNat) hBpos
    rw [harg] at hnd
    exact hnd

theorem round53N_dval (a b : Nat) (ha : 1 ≤ a) (hb : 1 ≤ b) :
    dval (round53N a b)
      = (neQ ((a:ℚ)/b * 2 ^ ((52:ℤ) - qexpN a b)) : ℚ) * 2 ^ (qexpN a b - 52) := by
  obtain ⟨m, hpair, hm⟩ := round53N_spec a b ha hb
  rw [hpair]
  simp only [dval]
  congr 1
  exact_mod_cast hm

theorem round53N_bounds (a b : Nat) (ha : 1 ≤ a) (hb : 1 ≤ b) :
    (2:ℚ) ^ qexpN a b ≤ dval (round53N a b) ∧
      dval (round53N a b) ≤ 2 ^ (qexpN a b + 1) := by
  obtain ⟨hq1, hq2⟩ := qexpN_spec a b ha hb
  have hp : (0:ℚ) < (2:ℚ) ^ ((52:ℤ) - qexpN a b) := zpow_pos (by norm_num) _
  have hs1 : (2:ℚ) ^ (52:ℤ) ≤ (a:ℚ)/b * 2 ^ ((52:ℤ) - qexpN a b) := by
    calc (2:ℚ) ^ (52:ℤ) = 2 ^ qexpN a b * 2 ^ ((52:ℤ) - qexpN a b) := by
          rw [← zpow_add₀ (two_ne_zero)]
          congr 1
          ring
      _ ≤ (a:ℚ)/b * 2 ^ ((52:ℤ) - qexpN a b) :=
          mul_le_mul_of_nonneg_right hq1 (le_of_lt hp)
  have hs2 : (a:ℚ)/b * 2 ^ ((52:ℤ) - qexpN a b) < (2:ℚ) ^ (53:ℤ) := by
    calc (a:ℚ)/b * 2 ^ ((52:ℤ) - qexpN a b)
        < 2 ^ (qexpN a b + 1) * 2 ^ ((52:ℤ) - qexpN a b) :=
          mul_lt_mul_of_pos_right hq2 hp
      _ = (2:ℚ) ^ (53:ℤ) := by
          rw [← zpow_add₀ (two_ne_zero)]
          congr 1
          ring
  have hc52 : (((2:ℤ) ^ (52:ℕ) : ℤ) : ℚ) = (2:ℚ) ^ (52:ℤ) := by norm_cast
  have hc53 : (((2:ℤ) ^ (53:ℕ) : ℤ) : ℚ) = (2:ℚ) ^ (53:ℤ) := by norm_cast
  have hneq1 : (2:ℤ) ^ (52:ℕ) ≤ neQ ((a:ℚ)/b * 2 ^ ((52:ℤ) - qexpN a b)) := by
    apply neQ_ge
    rw [hc52]
    exact hs1
  have hneq2 : neQ ((a:ℚ)/b * 2 ^ ((52:ℤ) - qexpN a b)) ≤ (2:ℤ) ^ (53:ℕ) := by
    apply neQ_le_of_lt
    rw [hc53]
    exact hs2
  have hp2 : (0:ℚ) < (2:ℚ) ^ (qexpN a b - 52) := zpow_pos (by norm_num) _
  rw [round53N_dval a b ha hb]
  constructor
  · calc (2:ℚ) ^ qexpN a b = 2 ^ (52:ℤ) * 2 ^ (qexpN a b - 52) := by
          rw [← zpow_add₀ (two_ne_zero)]
          congr 1
          ring
      _ ≤ (neQ ((a:ℚ)/b * 2 ^ ((52:ℤ) - qexpN a b)) : ℚ) * 2 ^ (qexpN a b - 52) := by
          apply mul_le_mul_of_nonneg_right _ (le_of_lt hp2)
          rw [← hc52]
          exact_mod_cast hneq1
  · calc (neQ ((a:ℚ)/b * 2 ^ ((52:ℤ) - qexpN a b)) : ℚ) * 2 ^ (qexpN a b - 52)
        ≤ (2:ℚ) ^ (53:ℤ) * 2 ^ (qexpN a b - 52) := by
          apply mul_le_mul_of_nonneg_right _ (le_of_lt hp2)
          rw [← hc53]
          exact_mod_cast hneq2
      _ = 2 ^ (qexpN a b + 1) := by
          rw [← zpow_add₀ (two_ne_zero)]
          congr 1
          ring

theorem round53N_pos (a b : Nat) (ha : 1 ≤ a) (hb : 1 ≤ b) :
    0 < dval (round53N a b) :=
  lt_of_lt_of_le (zpow_pos (by norm_num) _) (round53N_bounds a b ha hb).1

theorem round53N_m_pos (a b : Nat) (ha : 1 ≤ a) (hb : 1 ≤ b) :
    1 ≤ (round53N a b).1 := by
  by_contra hcon
  have hm0 : (round53N a b).1 = 0 := by omega
  have hpos := round53N_pos a b ha hb
  rw [dval, hm0] at hpos
  simp at hpos

theorem round53N_mono (a b c d : Nat) (ha : 1 ≤ a) (hb : 1 ≤ b) (hc : 1 ≤ c)
    (hd : 1 ≤ d) (h : (a:ℚ)/b ≤ (c:ℚ)/d) :
    dval (round53N a b) ≤ dval (round53N c d) := by
  have he : qexpN a b ≤ qexpN c d := by
    by_contra hcon
    push_neg at hcon
    have h1 := (qexpN_spec a b ha hb).1
    have h2 := (qexpN_spec c d hc hd).2
    have h3 : (2:ℚ) ^ (qexpN c d + 1) ≤ 2 ^ qexpN a b :=
      zpow_le_zpow_right₀ (by norm_num) (by omega)
    linarith
  rcases eq_or_lt_of_le he with heq | hlt
  · rw [round53N_dval a b ha hb, round53N_dval c d hc hd, ← heq]
    have hp : (0:ℚ) < (2:ℚ) ^ ((52:ℤ) - qexpN a b) := zpow_pos (by norm_num) _
    have hs : (a:ℚ)/b * 2 ^ ((52:ℤ) - qexpN a b) ≤ (c:ℚ)/d * 2 ^ ((52:ℤ) - qexpN a b) :=
      mul_le_mul_of_nonneg_right h (le_of_lt hp)
    have hne := neQ_mono hs
    have hp2 : (0:ℚ) ≤ (2:ℚ) ^ (qexpN a b - 52) := le_of_lt (zpow_pos (by norm_num) _)
    exact mul_le_mul_of_nonneg_right (by exact_mod_cast hne) hp2
  · have hub := (round53N_bounds a b ha hb).2
    have hlb := (round53N_bounds c d hc hd).1
    have hmid : (2:ℚ) ^ (qexpN a b + 1) ≤ 2 ^ qexpN c d :=
      zpow_le_zpow_right₀ (by norm_num) (by omega)
    linarith

theorem py100Args_spec (p : Nat × Int) (hm : 1 ≤ p.1) :
    1 ≤ (py100Args p).1 ∧ 1 ≤ (py100Args p).2 ∧
      ((py100Args p).1 : ℚ) / ((py100Args p).2 : ℚ) = dval p * 100 := by
  obtain ⟨m, e⟩ := p
  simp only [py100Args, dval] at *
  by_cases hs : (0:ℤ) ≤ e
  · simp only [if_pos hs]
    refine ⟨?_, by norm_num, ?_⟩
    · have h0 : 0 < m * 100 * 2 ^ e.toNat := by positivity
      omega
    · have hdt : ((e.toNat : ℕ) : ℤ) = e := Int.toNat_of_nonneg hs
      rw [Nat.cast_one, div_one]
      calc ((m * 100 * 2 ^ e.toNat : ℕ) : ℚ) = (m:ℚ) * 2 ^ (e.toNat : ℕ) * 100 := by
            push_cast
            ring
        _ = (m:ℚ) * 2 ^ e * 100 := by
            rw [← zpow_natCast (2:ℚ) e.toNat, hdt]
  · simp only [if_neg hs]
    refine ⟨?_, ?_, ?_⟩
    · have h0 : 0 < m * 100 := by positivity
      omega
    · have h0 : 0 < 2 ^ (-e).toNat := by positivity
      omega
    · have hdt : (((-e).toNat : ℕ) : ℤ) = -e := Int.toNat_of_nonneg (by omega)
      have h2 : (2:ℚ) ^ e = ((2:ℚ) ^ ((-e).toNat : ℕ))⁻¹ := by
        rw [← zpow_natCast (2:ℚ) (-e).toNat, hdt, zpow_neg, inv_inv]
      calc ((m * 100 : ℕ) : ℚ) / ((2 ^ (-e).toNat : ℕ) : ℚ)
          = (m:ℚ) * 100 * ((2:ℚ) ^ ((-e).toNat : ℕ))⁻¹ := by
            push_cast
            rw [div_eq_mul_inv]
        _ = (m:ℚ) * 2 ^ e * 100 := by rw [← h2]; ring

theorem pyTrunc_floor (p : Nat × Int) : (pyTrunc p : ℤ) = ⌊dval p⌋ := by
  obtain ⟨m, e⟩ := p
  simp only [pyTrunc, dval]
  by_cases hs : (0:ℤ) ≤ e
  · simp only [if_pos hs]
    have hdt : ((e.toNat : ℕ) : ℤ) = e := Int.toNat_of_nonneg hs
    have h1 : (m:ℚ) * 2 ^ e = ((m * 2 ^ e.toNat : ℕ) : ℚ) := by
      calc (m:ℚ) * 2 ^ e = (m:ℚ) * 2 ^ ((e.toNat : ℕ) : ℤ) := by rw [hdt]
        _ = (m:ℚ) * 2 ^ (e.toNat : ℕ) := by rw [zpow_natCast]
        _ = ((m * 2 ^ e.toNat : ℕ) : ℚ) := by push_cast; ring
    rw [h1, Int.floor_natCast]
  · simp only [if_neg hs]
    have hdt : (((-e).toNat : ℕ) : ℤ) = -e := Int.toNat_of_nonneg (by omega)
    have h2 : (2:ℚ) ^ e = ((2:ℚ) ^ ((-e).toNat : ℕ))⁻¹ := by
      rw [← zpow_natCast (2:ℚ) (-e).toNat, hdt, zpow_neg, inv_inv]
    have h1 : (m:ℚ) * 2 ^ e = (m:ℚ) / ((2 ^ (-e).toNat : ℕ) : ℚ) := by
      rw [h2, div_eq_mul_inv]
      push_cast
      ring
    rw [h1, floor_natCast_div m (2 ^ (-e).toNat) (Nat.one_le_pow _ _ (by norm_num))]

theorem pyProgressN_mono (k k' n : Nat) (hk : 1 ≤ k) (hkk : k ≤ k') (hn : 1 ≤ n) :
    pyProgressN k n ≤ pyProgressN k' n := by
  have hk' : 1 ≤ k' := le_trans hk hkk
  have hm1 := round53N_m_pos k n hk hn
  have hm1' := round53N_m_pos k' n hk' hn
  obtain ⟨ha2, hb2, hv2⟩ := py100Args_spec (round53N k n) hm1
  obtain ⟨ha2', hb2', hv2'⟩ := py100Args_spec (round53N k' n) hm1'
  have hn0 : (0:ℚ) < n := by exact_mod_cast hn
  have hdiv : (k:ℚ)/n ≤ (k':ℚ)/n := by gcongr
  have hv : dval (round53N k n) ≤ dval (round53N k' n) :=
    round53N_mono k n k' n hk hn hk' hn hdiv
  have hvv : ((py100Args (round53N k n)).1 : ℚ) / ((py100Args (round53N k n)).2 : ℚ)
      ≤ ((py100Args (round53N k' n)).1 : ℚ) / ((py100Args (round53N k' n)).2 : ℚ) := by
    rw [hv2, hv2']
    linarith
  have hmono := round53N_mono _ _ _ _ ha2 hb2 ha2' hb2' hvv
  have hf := Int.floor_mono hmono
  have e1 := pyTrunc_floor (round53N (py100Args (round53N k n)).1 (py100Args (round53N k n)).2)
  have e1' := pyTrunc_floor (round53N (py100Args (round53N k' n)).1 (py100Args (round53N k' n)).2)
  unfold pyProgressN
  omega

theorem round53N_self (n : Nat) (hn : 1 ≤ n) : round53N n n = (2 ^ 52, -52) := by
  have h1 : qexpN n n = 0 := by
    simp [qexpN, qgeTwoPow]
  simp only [round53N, h1]
  norm_num
  rw [if_pos (show 0 < n by omega), Nat.mul_div_cancel_left _ (show 0 < n by omega)]
  decide

theorem pyProgressN_self (n : Nat) (hn : 1 ≤ n) : pyProgressN n n = 100 := by
  unfold pyProgressN
  rw [round53N_self n hn]
  decide

theorem pyProgressN_le_100 (k n : Nat) (hk : 1 ≤ k) (hkn : k ≤ n) :
    pyProgressN k n ≤ 100 := by
  have h1 := pyProgressN_mono k n n hk hkn (le_trans hk hkn)
  rw [pyProgressN_self n (le_trans hk hkn)] at h1
  exact h1

/-! ## The adapters never raise; dispatch facts -/

theorem pyCatchAll_ok (body : Except PyExn ToolResult) :
    ∃ r, pyCatchAll body = .ok r := by
  cases body <;> simp [pyCatchAll]

theorem run_jadx_ok (env : JadxEnv) (p d : String) : ∃ r, run_jadx env p d = .ok r :=
  pyCatchAll_ok _

theorem run_apktool_ok (env : ApktoolEnv) (p d : String) : ∃ r, run_apktool env p d = .ok r :=
  pyCatchAll_ok _

theorem run_quark_ok (env : QuarkEnv) (p : String) : ∃ r, run_quark env p = .ok r :=
  pyCatchAll_ok _

theorem run_androguard_ok (env : AndroEnv) (p : String) : ∃ r, run_androguard env p = .ok r :=
  pyCatchAll_ok _

theorem adapterRecord_critical (res : Except PyExn ToolResult) :
    (adapterRecord res).critical = (adapterRecord res).recorded.hasError := by
  cases res <;> simp [adapterRecord, ToolResult.hasError]

theorem adapterRecord_isAnalysis_of_ok (res : Except PyExn ToolResult)
    (h : ∃ r, res = .ok r) : (adapterRecord res).isAnalysis = true := by
  obtain ⟨r, rfl⟩ := h
  simp [adapterRecord]

theorem dispatch_critical (te : ToolEnvs) (apkId t : String) :
    (dispatch te apkId t).critical = (dispatch te apkId t).recorded.hasError := by
  unfold dispatch
  split_ifs <;>
    first
      | apply adapterRecord_critical
      | simp [ToolResult.hasError]

theorem adapterRecord_isUnknown (res : Except PyExn ToolResult) :
    (adapterRecord res).isUnknown = false := by
  cases res <;> simp [adapterRecord]

theorem dispatch_isAnalysis (te : ToolEnvs) (apkId t : String) :
    (dispatch te apkId t).isAnalysis = true ↔ t ∈ automatableTools := by
  simp only [dispatch]
  split_ifs with h1 h2 h3 h4 h5 h6
  · subst h1
    rcases run_jadx_ok te.jadx ("uploads/" ++ apkId ++ ".apk")
      ("results/" ++ apkId ++ "/jadx_output") with ⟨r, hr⟩
    rw [hr]
    simp only [adapterRecord]
    decide
  · subst h2
    rcases run_apktool_ok te.apktool ("uploads/" ++ apkId ++ ".apk")
      ("results/" ++ apkId ++ "/apktool_output") with ⟨r, hr⟩
    rw [hr]
    simp only [adapterRecord]
    decide
  · subst h3
    rcases run_quark_ok te.quark ("uploads/" ++ apkId ++ ".apk") with ⟨r, hr⟩
    rw [hr]
    simp only [adapterRecord]
    decide
  · subst h4
    rcases run_androguard_ok te.andro ("uploads/" ++ apkId ++ ".apk") with ⟨r, hr⟩
    rw [hr]
    simp only [adapterRecord]
    decide
  · subst h5
    decide
  · subst h6
    decide
  · simp only [automatableTools, List.mem_cons, List.not_mem_nil, or_false]
    constructor
    · intro h
      simp at h
    · intro h
      rcases h with h | h | h | h
      · exact absurd h h1
      · exact absurd h h2
      · exact absurd h h3
      · exact absurd h h4

theorem dispatch_isUnknown (te : ToolEnvs) (apkId t : String) :
    (dispatch te apkId t).isUnknown = true ↔
      (t ≠ "jadx" ∧ t ≠ "apktool" ∧ t ≠ "quark" ∧ t ≠ "androguard" ∧
        t ≠ "frida" ∧ t ≠ "mitmproxy") := by
  simp only [dispatch]
  split_ifs with h1 h2 h3 h4 h5 h6
  · subst h1
    rw [adapterRecord_isUnknown]
    decide
  · subst h2
    rw [adapterRecord_isUnknown]
    decide
  · subst h3
    rw [adapterRecord_isUnknown]
    decide
  · subst h4
    rw [adapterRecord_isUnknown]
    decide
  · subst h5
    decide
  · subst h6
    decide
  · constructor
    · intro _
      exact ⟨h1, h2, h3, h4, h5, h6⟩
    · intro _
      rfl

theorem dispatch_frida (te : ToolEnvs) (apkId : String) :
    dispatch te apkId "frida" = ⟨.pending fridaMsg, false, false, false⟩ := by
  rfl

theorem dispatch_mitm (te : ToolEnvs) (apkId : String) :
    dispatch te apkId "mitmproxy" = ⟨.pending mitmMsg, false, false, false⟩ := by
  rfl

/-! ## Closed form of the per-tool loop -/

theorem loopTools_spec (te : Nat → ToolEnvs) (apkId : String) (n : Nat) (hn : n ≠ 0) :
    ∀ ts idx st, loopTools te apkId n idx ts st = .ok
      { record := recAfter n idx st.record ts
        results := dinsertAll (logOf te apkId idx ts) st.results
        hasCrit := st.hasCrit || (logOf te apkId idx ts).any (fun p => p.2.hasError)
        unknown := st.unknown ++ unkOf te apkId idx ts
        twa := st.twa ++ twaOf te apkId idx ts
        log := st.log ++ logOf te apkId idx ts
        trace := st.trace ++ tracePiece te apkId n idx st.record ts } := by
  intro ts
  induction ts with
  | nil =>
    intro idx st
    simp [loopTools, recAfter, logOf, unkOf, twaOf, tracePiece, dinsertAll]
  | cons t ts ih =>
    intro idx st
    have hstep : stepTool (te idx) apkId n idx t st = .ok
        { record := { st.record with current_tool := some t, progress := pyProgressN (idx+1) n }
          results := dinsert t (dispatch (te idx) apkId t).recorded st.results
          hasCrit := st.hasCrit || (dispatch (te idx) apkId t).critical
          unknown := st.unknown ++ (if (dispatch (te idx) apkId t).isUnknown then [t] else [])
          twa := st.twa ++ (if (dispatch (te idx) apkId t).isAnalysis then [t] else [])
          log := st.log ++ [(t, (dispatch (te idx) apkId t).recorded)]
          trace := st.trace ++ [({ st.record with current_tool := some t }, .mcurrent),
            ({ st.record with current_tool := some t, progress := pyProgressN (idx+1) n }, .mprogress),
            ({ st.record with current_tool := some t, progress := pyProgressN (idx+1) n }, .obs)] } := by
      simp [stepTool, pyProgressE, hn]
    rw [loopTools, hstep]
    simp only [bind, Except.bind]
    rw [ih]
    simp [logOf, unkOf, twaOf, tracePiece, recAfter, dinsertAll, dispatch_critical,
      Bool.or_assoc, List.append_assoc]

theorem run_analysis_workflow_eq (te : Nat → ToolEnvs) (apkId : String)
    (tools : List String) (r0 : JobRecord) :
    run_analysis_workflow te apkId tools r0
      = .ok (finishSt tools (wfLoopSt te apkId tools r0)) := by
  cases tools with
  | nil =>
    simp [run_analysis_workflow, loopTools, wfLoopSt, recAfter, logOf, unkOf, twaOf,
      tracePiece, dinsertAll, initSt, bind, Except.bind, pure, Except.pure]
  | cons t ts =>
    have hn : (t :: ts).length ≠ 0 := by simp
    simp only [run_analysis_workflow]
    rw [loopTools_spec te apkId _ hn (t :: ts) 0 (initSt r0)]
    simp only [bind, Except.bind, pure, Except.pure]
    simp [initSt, wfLoopSt]

/-! ## Finalisation lemmas -/

theorem finishSt_eq_1 (tools : List String) (st : LoopSt)
    (h : st.twa = [] ∧ tools.all (fun t => t ∈ pendingOnlyTools) = true) :
    finishSt tools st = { st with
      record := ⟨"failed", 100, none, some st.results, some noAnalysisMsg⟩,
      trace := st.trace ++
        [({st.record with progress := 100}, .mprogress),
         ({st.record with progress := 100, current_tool := none}, .mcurrent),
         ({st.record with progress := 100, current_tool := none, status := "failed"}, .mstatus),
         ({st.record with progress := 100, current_tool := none, status := "failed", error := some noAnalysisMsg}, .merror),
         (⟨"failed", 100, none, some st.results, some noAnalysisMsg⟩, .mresults),
         (⟨"failed", 100, none, some st.results, some noAnalysisMsg⟩, .obs)] } := by
  simp only [finishSt, if_pos h]

theorem finishSt_eq_2 (tools : List String) (st : LoopSt)
    (h : ¬(st.twa = [] ∧ tools.all (fun t => t ∈ pendingOnlyTools) = true))
    (hc : st.hasCrit = true) :
    finishSt tools st = { st with
      record := ⟨"failed", 100, none, some st.results, some (errJoin st.unknown st.results)⟩,
      trace := st.trace ++
        [({st.record with progress := 100}, .mprogress),
         ({st.record with progress := 100, current_tool := none}, .mcurrent),
         ({st.record with progress := 100, current_tool := none, status := "failed"}, .mstatus),
         ({st.record with progress := 100, current_tool := none, status := "failed", error := some (errJoin st.unknown st.results)}, .merror),
         (⟨"failed", 100, none, some st.results, some (errJoin st.unknown st.results)⟩, .mresults),
         (⟨"failed", 100, none, some st.results, some (errJoin st.unknown st.results)⟩, .obs)] } := by
  simp only [finishSt, if_neg h, hc, if_pos]

theorem finishSt_eq_3 (tools : List String) (st : LoopSt)
    (h : ¬(st.twa = [] ∧ tools.all (fun t => t ∈ pendingOnlyTools) = true))
    (hc : st.hasCrit = false) :
    finishSt tools st = { st with
      record := ⟨"completed", 100, none, some st.results, st.record.error⟩,
      trace := st.trace ++
        [({st.record with progress := 100}, .mprogress),
         ({st.record with progress := 100, current_tool := none}, .mcurrent),
         ({st.record with progress := 100, current_tool := none, status := "completed"}, .mstatus),
         (⟨"completed", 100, none, some st.results, st.record.error⟩, .mresults),
         (⟨"completed", 100, none, some st.results, st.record.error⟩, .obs)] } := by
  simp only [finishSt, if_neg h, hc]
  simp

/-! ## Loop component facts -/

theorem recAfter_fields (n : Nat) : ∀ ts idx (r : JobRecord),
    (recAfter n idx r ts).status = r.status ∧
    (recAfter n idx r ts).results = r.results ∧
    (recAfter n idx r ts).error = r.error := by
  intro ts
  induction ts with
  | nil => intro idx r; exact ⟨rfl, rfl, rfl⟩
  | cons t ts ih =>
    intro idx r
    simp only [recAfter]
    exact ih (idx + 1) _

theorem tracePiece_fields (te : Nat → ToolEnvs) (apkId : String) (n : Nat) :
    ∀ ts idx (r : JobRecord), ∀ p ∈ tracePiece te apkId n idx r ts,
    (p : JobRecord × Mut).1.status = r.status ∧ p.1.results = r.results ∧
      p.1.error = r.error := by
  intro ts
  induction ts with
  | nil =>
    intro idx r p hp
    simp [tracePiece] at hp
  | cons t ts ih =>
    intro idx r p hp
    simp only [tracePiece, List.mem_cons] at hp
    rcases hp with rfl | rfl | rfl | hp
    · exact ⟨rfl, rfl, rfl⟩
    · exact ⟨rfl, rfl, rfl⟩
    · exact ⟨rfl, rfl, rfl⟩
    · exact ih (idx + 1) { status := r.status, progress := pyProgressN (idx + 1) n, current_tool := some t, results := r.results, error := r.error } p hp

theorem obsOf_append (a b : List (JobRecord × Mut)) :
    obsOf (a ++ b) = obsOf a ++ obsOf b := by
  simp [obsOf]

theorem progressWritesOf_append (a b : List (JobRecord × Mut)) :
    progressWritesOf (a ++ b) = progressWritesOf a ++ progressWritesOf b := by
  simp [progressWritesOf]

theorem logOf_keys (te : Nat → ToolEnvs) (apkId : String) :
    ∀ ts idx, (logOf te apkId idx ts).map (fun p => p.1) = ts := by
  intro ts
  induction ts with
  | nil => intro idx; rfl
  | cons t ts ih =>
    intro idx
    simp only [logOf, List.map_cons, ih]

theorem logOf_length (te : Nat → ToolEnvs) (apkId : String) :
    ∀ ts idx, (logOf te apkId idx ts).length = ts.length := by
  intro ts
  induction ts with
  | nil => intro idx; rfl
  | cons t ts ih =>
    intro idx
    simp only [logOf, List.length_cons, ih]

theorem dinsert_keys (k : String) (v : ToolResult) :
    ∀ d, dkeys (dinsert k v d) = if k ∈ dkeys d then dkeys d else dkeys d ++ [k] := by
  intro d
  induction d with
  | nil => simp [dinsert, dkeys]
  | cons p d ih =>
    obtain ⟨k', v'⟩ := p
    by_cases hk : k' = k
    · subst hk
      simp [dinsert, dkeys]
    · simp only [dinsert, if_neg hk, dkeys, List.map_cons] at ih ⊢
      rw [ih]
      by_cases hmem : k ∈ List.map (fun p => p.1) d
      · rw [if_pos hmem, if_pos (List.mem_cons_of_mem _ hmem)]
      · have hnot : ¬ k ∈ k' :: List.map (fun p => p.1) d := by
          simp only [List.mem_cons]
          push_neg
          exact ⟨fun h => hk h.symm, hmem⟩
        rw [if_neg hmem, if_neg hnot]
        simp

theorem dinsert_keys_sub (k : String) (v : ToolResult) (d : List (String × ToolResult)) :
    dkeys d ⊆ dkeys (dinsert k v d) := by
  rw [dinsert_keys]
  split_ifs
  · exact fun x h => h
  · exact fun x h => by simp [h]

theorem dinsert_keys_mem (k : String) (v : ToolResult) (d : List (String × ToolResult))
    (x : String) : x ∈ dkeys (dinsert k v d) ↔ x ∈ dkeys d ∨ x = k := by
  rw [dinsert_keys]
  split_ifs with h
  · constructor
    · exact fun hx => Or.inl hx
    · rintro (hx | rfl)
      · exact hx
      · exact h
  · simp

theorem dinsert_keys_nodup (k : String) (v : ToolResult) (d : List (String × ToolResult))
    (h : (dkeys d).Nodup) : (dkeys (dinsert k v d)).Nodup := by
  rw [dinsert_keys]
  split_ifs with hmem
  · exact h
  · simp only [List.nodup_append]
    refine ⟨h, List.nodup_singleton k, ?_⟩
    intro x hx hxk
    simp only [List.mem_singleton] at hxk
    subst hxk
    exact hmem hx

theorem dinsertAll_keys_mem (x : String) :
    ∀ (l : List (String × ToolResult)) init,
      x ∈ dkeys (dinsertAll l init) ↔ x ∈ dkeys init ∨ x ∈ l.map (fun p => p.1) := by
  intro l
  induction l with
  | nil => intro init; simp [dinsertAll]
  | cons p l ih =>
    intro init
    obtain ⟨k, v⟩ := p
    simp only [dinsertAll, List.foldl_cons] at ih ⊢
    rw [ih (dinsert k v init), dinsert_keys_mem]
    simp only [List.map_cons, List.mem_cons]
    tauto

theorem dinsertAll_keys_nodup :
    ∀ (l : List (String × ToolResult)) init,
      (dkeys init).Nodup → (dkeys (dinsertAll l init)).Nodup := by
  intro l
  induction l with
  | nil => intro init h; exact h
  | cons p l ih =>
    intro init h
    obtain ⟨k, v⟩ := p
    simp only [dinsertAll, List.foldl_cons] at ih ⊢
    exact ih (dinsert k v init) (dinsert_keys_nodup k v init h)

theorem dinsertAll_keys_sub :
    ∀ (l : List (String × ToolResult)) init,
      dkeys init ⊆ dkeys (dinsertAll l init) := by
  intro l
  induction l with
  | nil => intro init; exact fun x h => h
  | cons p l ih =>
    intro init
    obtain ⟨k, v⟩ := p
    simp only [dinsertAll, List.foldl_cons] at ih ⊢
    exact fun x h => ih (dinsert k v init) (dinsert_keys_sub k v init h)

theorem dinsert_values (P : ToolResult → Prop) (k : String) (v : ToolResult)
    (hv : P v) : ∀ d, (∀ p ∈ d, P (p : String × ToolResult).2) →
      ∀ p ∈ dinsert k v d, P (p : String × ToolResult).2 := by
  intro d
  induction d with
  | nil =>
    intro _ p hp
    simp only [dinsert, List.mem_singleton] at hp
    subst hp
    exact hv
  | cons q d ih =>
    intro hd p hp
    obtain ⟨k', v'⟩ := q
    simp only [dinsert] at hp
    split_ifs at hp with hk
    · rcases List.mem_cons.mp hp with rfl | hp
      · exact hv
      · exact hd _ (List.mem_cons_of_mem _ hp)
    · rcases List.mem_cons.mp hp with rfl | hp
      · exact hd _ (List.mem_cons_self _ _)
      · exact ih (fun q hq => hd q (List.mem_cons_of_mem _ hq)) p hp

theorem dinsertAll_values (P : ToolResult → Prop) :
    ∀ (l : List (String × ToolResult)) init,
      (∀ p ∈ l, P (p : String × ToolResult).2) →
      (∀ p ∈ init, P (p : String × ToolResult).2) →
      ∀ p ∈ dinsertAll l init, P (p : String × ToolResult).2 := by
  intro l
  induction l with
  | nil => intro init _ hinit p hp; exact hinit p hp
  | cons q l ih =>
    intro init hl hinit p hp
    obtain ⟨k, v⟩ := q
    simp only [dinsertAll, List.foldl_cons] at hp
    exact ih (dinsert k v init)
      (fun q hq => hl q (List.mem_cons_of_mem _ hq))
      (dinsert_values P k v (hl _ (List.mem_cons_self _ _)) init hinit) p hp

theorem obsOf_initSt (r0 : JobRecord) : obsOf (initSt r0).trace = [r0] := by
  simp [initSt, obsOf]

theorem progressWritesOf_initSt (r0 : JobRecord) :
    progressWritesOf (initSt r0).trace = [0] := by
  simp [initSt, progressWritesOf]

theorem obsOf_cons (r : JobRecord) (m : Mut) (l : List (JobRecord × Mut)) :
    obsOf ((r, m) :: l) = (if m = Mut.obs then [r] else []) ++ obsOf l := by
  simp only [obsOf, List.filter_cons]
  split_ifs with h <;> simp_all

theorem progressWritesOf_cons (r : JobRecord) (m : Mut) (l : List (JobRecord × Mut)) :
    progressWritesOf ((r, m) :: l)
      = (if m = Mut.mprogress then [r.progress] else []) ++ progressWritesOf l := by
  simp only [progressWritesOf, List.filter_cons]
  split_ifs with h <;> simp_all

theorem obsOf_tracePiece (te : Nat → ToolEnvs) (apkId : String) (n : Nat) :
    ∀ ts idx (r : JobRecord), r.status = "processing" → r.results = none →
      r.error = none →
      obsOf (tracePiece te apkId n idx r ts) = specObs n idx ts := by
  intro ts
  induction ts with
  | nil =>
    intro idx r _ _ _
    simp [tracePiece, specObs, obsOf]
  | cons t ts ih =>
    intro idx r h1 h2 h3
    simp only [tracePiece, specObs, obsOf_cons]
    simp only [reduceIte]
    rw [if_neg (by simp), if_neg (by simp)]
    simp only [List.nil_append, List.singleton_append]
    rw [ih (idx + 1) { status := r.status, progress := pyProgressN (idx + 1) n, current_tool := some t, results := r.results, error := r.error } h1 h2 h3]
    simp only [h1, h2, h3]

theorem obs_progress_tracePiece (te : Nat → ToolEnvs) (apkId : String) (n : Nat) :
    ∀ ts idx (r : JobRecord),
      (obsOf (tracePiece te apkId n idx r ts)).map (fun x => x.progress)
        = (List.range ts.length).map (fun i => pyProgressN (idx + i + 1) n) := by
  intro ts
  induction ts with
  | nil =>
    intro idx r
    simp [tracePiece, obsOf]
  | cons t ts ih =>
    intro idx r
    simp only [tracePiece, obsOf_cons]
    simp only [reduceIte]
    rw [if_neg (by simp), if_neg (by simp)]
    simp only [List.nil_append, List.singleton_append, List.map_cons]
    rw [ih (idx + 1) _]
    rw [List.length_cons, List.range_succ_eq_map]
    simp only [List.map_cons, List.map_map, List.cons.injEq]
    constructor
    · trivial
    · apply List.map_congr_left
      intro a _
      simp only [Function.comp_apply]
      congr 1
      omega

theorem progressWrites_tracePiece (te : Nat → ToolEnvs) (apkId : String) (n : Nat) :
    ∀ ts idx (r : JobRecord),
      progressWritesOf (tracePiece te apkId n idx r ts)
        = (List.range ts.length).map (fun i => pyProgressN (idx + i + 1) n) := by
  intro ts
  induction ts with
  | nil =>
    intro idx r
    simp [tracePiece, progressWritesOf]
  | cons t ts ih =>
    intro idx r
    simp only [tracePiece, progressWritesOf_cons]
    simp only [reduceIte]
    rw [if_neg (by simp), if_neg (by simp)]
    simp only [List.nil_append, List.singleton_append, List.map_cons]
    rw [ih (idx + 1) _]
    rw [List.length_cons, List.range_succ_eq_map]
    simp only [List.map_cons, List.map_map, List.cons.injEq]
    constructor
    · trivial
    · apply List.map_congr_left
      intro a _
      simp only [Function.comp_apply]
      congr 1
      omega

theorem finishSt_components (tools : List String) (st : LoopSt) :
    (finishSt tools st).log = st.log ∧ (finishSt tools st).results = st.results ∧
    (finishSt tools st).unknown = st.unknown ∧ (finishSt tools st).twa = st.twa ∧
    (finishSt tools st).hasCrit = st.hasCrit := by
  simp only [finishSt]
  split_ifs <;> exact ⟨rfl, rfl, rfl, rfl, rfl⟩

theorem wfLoopSt_record (te : Nat → ToolEnvs) (apkId : String) (tools : List String)
    (r0 : JobRecord) :
    (wfLoopSt te apkId tools r0).record.status = "processing" ∧
    (wfLoopSt te apkId tools r0).record.results = r0.results ∧
    (wfLoopSt te apkId tools r0).record.error = r0.error := by
  obtain ⟨h1, h2, h3⟩ :=
    recAfter_fields tools.length tools 0 (initSt r0).record
  exact ⟨by rw [wfLoopSt, h1]; rfl, by rw [wfLoopSt, h2]; rfl, by rw [wfLoopSt, h3]; rfl⟩

/-! ## Claim C7 -/

/-- **C7** (confirmed): each adapter (`run_jadx`, `run_apktool`,
`run_quark`, `run_androguard`) returns exactly one result dict for every
environment — every subprocess outcome, timeout included, and every
other exception raised during invocation is caught at the adapter's
boundary and converted to an error dict, so the call is `.ok` and never
propagates an exception; consequently `run_analysis_workflow` itself
never sees an adapter exception and its tool loop records exactly one
result per requested tool (the ghost `log` has one entry per tool). -/
theorem C7_adapters_never_raise :
    (∀ (env : JadxEnv) (p d : String), ∃ r, run_jadx env p d = .ok r) ∧
    (∀ (env : ApktoolEnv) (p d : String), ∃ r, run_apktool env p d = .ok r) ∧
    (∀ (env : QuarkEnv) (p : String), ∃ r, run_quark env p = .ok r) ∧
    (∀ (env : AndroEnv) (p : String), ∃ r, run_androguard env p = .ok r) ∧
    (∀ (te : Nat → ToolEnvs) (apkId : String) (tools : List String) (r0 : JobRecord),
      ∃ st, run_analysis_workflow te apkId tools r0 = .ok st ∧
        st.log.length = tools.length) := by
  refine ⟨run_jadx_ok, run_apktool_ok, run_quark_ok, run_androguard_ok, ?_⟩
  intro te apkId tools r0
  refine ⟨_, run_analysis_workflow_eq te apkId tools r0, ?_⟩
  rw [(finishSt_components tools (wfLoopSt te apkId tools r0)).1]
  simp only [wfLoopSt]
  exact logOf_length te apkId tools 0

/-! ## Claim C9 -/

/-- **C9** (confirmed): a job with an empty tool list terminates
normally — the per-tool loop body never runs, so the progress division
by `total_tools = 0` is never evaluated (the run is `.ok`, not a
`ZeroDivisionError`, and the ghost `log` of iterations is empty; the
whole mutation trace is just the three initial writes and the six
finalisation writes) — and ends failed with progress 100, an empty
results dict and the no-actual-analysis message, exactly like a request
naming only the unautomatable tools. -/
theorem C9_empty_tool_list (te : Nat → ToolEnvs) (apkId : String) (r0 : JobRecord) :
    ∃ st, run_analysis_workflow te apkId [] r0 = .ok st ∧
      st.record = ⟨"failed", 100, none, some [], some noAnalysisMsg⟩ ∧
      st.log = [] ∧
      st.trace =
        [(r0, .obs),
         ({r0 with status := "processing"}, .mstatus),
         ({r0 with status := "processing", progress := 0}, .mprogress),
         ({r0 with status := "processing", progress := 100}, .mprogress),
         ({r0 with status := "processing", progress := 100, current_tool := none}, .mcurrent),
         ({r0 with status := "failed", progress := 100, current_tool := none}, .mstatus),
         ({r0 with status := "failed", progress := 100, current_tool := none, error := some noAnalysisMsg}, .merror),
         (⟨"failed", 100, none, some [], some noAnalysisMsg⟩, .mresults),
         (⟨"failed", 100, none, some [], some noAnalysisMsg⟩, .obs)] := by
  refine ⟨_, run_analysis_workflow_eq te apkId [] r0, ?_, ?_, ?_⟩ <;>
    simp [wfLoopSt, recAfter, logOf, unkOf, twaOf, tracePiece, dinsertAll, initSt,
      finishSt, pendingOnlyTools]

/-! ## Claim C1 -/

theorem pendingOnly_dispatch (te : ToolEnvs) (apkId t : String)
    (h : t = "frida" ∨ t = "mitmproxy") :
    (dispatch te apkId t).recorded.isPending = true ∧
    (dispatch te apkId t).recorded.hasError = false ∧
    (dispatch te apkId t).isAnalysis = false ∧
    (dispatch te apkId t).isUnknown = false := by
  rcases h with rfl | rfl
  · rw [dispatch_frida]
    exact ⟨rfl, rfl, rfl, rfl⟩
  · rw [dispatch_mitm]
    exact ⟨rfl, rfl, rfl, rfl⟩

theorem pendingOnly_loop (te : Nat → ToolEnvs) (apkId : String) :
    ∀ ts idx, (∀ t ∈ ts, t = "frida" ∨ t = "mitmproxy") →
      (∀ p ∈ logOf te apkId idx ts,
        (p : String × ToolResult).2.isPending = true ∧ p.2.hasError = false) ∧
      twaOf te apkId idx ts = [] := by
  intro ts
  induction ts with
  | nil =>
    intro idx _
    exact ⟨by intro p hp; simp [logOf] at hp, rfl⟩
  | cons t ts ih =>
    intro idx hall
    have ht := pendingOnly_dispatch (te idx) apkId t (hall t (List.mem_cons_self _ _))
    have hrest := ih (idx + 1) (fun x hx => hall x (List.mem_cons_of_mem _ hx))
    constructor
    · intro p hp
      simp only [logOf, List.mem_cons] at hp
      rcases hp with rfl | hp
      · exact ⟨ht.1, ht.2.1⟩
      · exact hrest.1 p hp
    · simp only [twaOf, ht.2.2.1, if_false, List.nil_append]
      exact hrest.2

/-- **C1** (confirmed): for every non-empty tool list consisting solely
of the unautomatable tools ("frida", "mitmproxy"), the workflow
terminates failed with exactly the no-actual-analysis error message,
even though every entry of the final results dict is a Pending dict and
none carries an "error" key. -/
theorem C1_pending_only_fails (te : Nat → ToolEnvs) (apkId : String)
    (tools : List String) (r0 : JobRecord)
    (hne : tools ≠ [])
    (hall : ∀ t ∈ tools, t = "frida" ∨ t = "mitmproxy") :
    ∃ st, run_analysis_workflow te apkId tools r0 = .ok st ∧
      st.record.status = "failed" ∧
      st.record.error = some noAnalysisMsg ∧
      ∃ l, st.record.results = some l ∧ l ≠ [] ∧
        ∀ p ∈ l, (p : String × ToolResult).2.isPending = true ∧
          p.2.hasError = false := by
  refine ⟨_, run_analysis_workflow_eq te apkId tools r0, ?_⟩
  obtain ⟨hlog, htwa⟩ := pendingOnly_loop te apkId tools 0 hall
  have hbranch : (wfLoopSt te apkId tools r0).twa = [] ∧
      tools.all (fun t => t ∈ pendingOnlyTools) = true := by
    constructor
    · exact htwa
    · rw [List.all_eq_true]
      intro t ht
      rcases hall t ht with rfl | rfl <;> decide
  rw [finishSt_eq_1 tools _ hbranch]
  refine ⟨rfl, rfl, dinsertAll (logOf te apkId 0 tools) [], rfl, ?_, ?_⟩
  · intro hcon
    rcases tools with _ | ⟨t, ts⟩
    · exact hne rfl
    · have hmem : t ∈ dkeys (dinsertAll (logOf te apkId 0 (t :: ts)) []) := by
        rw [dinsertAll_keys_mem]
        right
        rw [logOf_keys]
        exact List.mem_cons_self _ _
      have hkeys : dkeys (dinsertAll (logOf te apkId 0 (t :: ts)) []) = [] := by
        rw [hcon]
        rfl
      rw [hkeys] at hmem
      exact List.not_mem_nil _ hmem
  · exact dinsertAll_values (fun r => r.isPending = true ∧ r.hasError = false)
      (logOf te apkId 0 tools) [] hlog (by intro p hp; simp at hp)

/-- Witness for C1 at the concrete request `["frida", "mitmproxy"]`. -/
theorem C1_witness :
    (["frida", "mitmproxy"] ≠ ([] : List String)) ∧
    (∃ st, run_analysis_workflow (fun _ => defToolEnvs) "job1" ["frida", "mitmproxy"]
        uploadRecord = .ok st ∧
      st.record.status = "failed" ∧
      st.record.error = some noAnalysisMsg ∧
      ∃ l, st.record.results = some l ∧ l ≠ [] ∧
        ∀ p ∈ l, (p : String × ToolResult).2.isPending = true ∧
          p.2.hasError = false) :=
  ⟨by decide,
   C1_pending_only_fails (fun _ => defToolEnvs) "job1" ["frida", "mitmproxy"]
     uploadRecord (by decide) (by decide)⟩

/-! ## Claim C2 -/

theorem twaOf_ne_nil (te : Nat → ToolEnvs) (apkId : String) :
    ∀ ts idx, (∃ t ∈ ts, t ∈ automatableTools) → twaOf te apkId idx ts ≠ [] := by
  intro ts
  induction ts with
  | nil =>
    intro idx h
    simp at h
  | cons t ts ih =>
    intro idx h
    simp only [twaOf]
    by_cases ht : (dispatch (te idx) apkId t).isAnalysis = true
    · simp [ht]
    · rcases h with ⟨x, hx, hauto⟩
      rcases List.mem_cons.mp hx with rfl | hx
      · exact absurd ((dispatch_isAnalysis (te idx) apkId x).mpr hauto) ht
      · have := ih (idx + 1) ⟨x, hx, hauto⟩
        simp only [Bool.not_eq_true] at ht
        simp [ht, this]

/-- **C2** (confirmed): after all tools have been attempted, if any
result recorded during the run (the ghost `log`, which includes the
error entry written for an unrecognised tool name and keeps entries a
duplicate tool later overwrites in the dict) is an error dict, the
terminal status is "failed"; if no recorded result is an error dict and
at least one requested tool is automatable (dispatched to a real
adapter), the terminal status is "completed" — in particular, mixing
frida/mitmproxy with automatable tools that all succeed ends
"completed". -/
theorem C2_error_classification (te : Nat → ToolEnvs) (apkId : String)
    (tools : List String) (r0 : JobRecord) :
    ∃ st, run_analysis_workflow te apkId tools r0 = .ok st ∧
      ((st.log.any (fun p => p.2.hasError)) = true → st.record.status = "failed") ∧
      ((st.log.any (fun p => p.2.hasError)) = false →
        (∃ t ∈ tools, t ∈ automatableTools) → st.record.status = "completed") := by
  refine ⟨_, run_analysis_workflow_eq te apkId tools r0, ?_, ?_⟩
  all_goals
    rw [(finishSt_components tools (wfLoopSt te apkId tools r0)).1]
  · intro hany
    by_cases hb : (wfLoopSt te apkId tools r0).twa = [] ∧
        tools.all (fun t => t ∈ pendingOnlyTools) = true
    · rw [finishSt_eq_1 tools _ hb]
    · have hcrit : (wfLoopSt te apkId tools r0).hasCrit = true := hany
      rw [finishSt_eq_2 tools _ hb hcrit]
  · intro hnone hauto
    have hb : ¬((wfLoopSt te apkId tools r0).twa = [] ∧
        tools.all (fun t => t ∈ pendingOnlyTools) = true) := by
      intro hcon
      exact twaOf_ne_nil te apkId tools 0 hauto hcon.1
    have hcrit : (wfLoopSt te apkId tools r0).hasCrit = false := hnone
    rw [finishSt_eq_3 tools _ hb hcrit]

/-! ## Claim C5 -/

theorem logOf_append (te : Nat → ToolEnvs) (apkId : String) :
    ∀ l1 l2 idx, logOf te apkId idx (l1 ++ l2)
      = logOf te apkId idx l1 ++ logOf te apkId (idx + l1.length) l2 := by
  intro l1
  induction l1 with
  | nil => intro l2 idx; simp [logOf]
  | cons t l1 ih =>
    intro l2 idx
    simp only [List.cons_append, logOf, List.append_eq, ih, List.length_cons]
    have harith : idx + 1 + l1.length = idx + (l1.length + 1) := by omega
    rw [harith]

theorem finishSt_record_results (tools : List String) (st : LoopSt) :
    (finishSt tools st).record.results = some st.results := by
  simp only [finishSt]
  split_ifs <;> rfl

theorem dinsertAll_append (a b init : List (String × ToolResult)) :
    dinsertAll (a ++ b) init = dinsertAll b (dinsertAll a init) := by
  simp [dinsertAll, List.foldl_append]

/-- **C5** (confirmed): at the terminal state the results dict has
exactly one entry under every tool name occurring in the request
(recognised or not, succeeded or failed) and under no other name; its
keys are without duplicates; and across loop iterations the key set only
grows — the dict after processing the first `j` tools contains every key
present after the first `i ≤ j` tools, so no tool is skipped after an
earlier failure and no entry is ever removed. -/
theorem C5_results_cover_request (te : Nat → ToolEnvs) (apkId : String)
    (tools : List String) (r0 : JobRecord) :
    ∃ st, run_analysis_workflow te apkId tools r0 = .ok st ∧
      ∃ l, st.record.results = some l ∧
        (∀ name, name ∈ dkeys l ↔ name ∈ tools) ∧
        (dkeys l).Nodup ∧
        (∀ i j, i ≤ j →
          ∀ sti stj, stAfter te apkId tools r0 i = .ok sti →
            stAfter te apkId tools r0 j = .ok stj →
            dkeys sti.results ⊆ dkeys stj.results) := by
  refine ⟨_, run_analysis_workflow_eq te apkId tools r0, _,
    finishSt_record_results tools _, ?_, ?_, ?_⟩
  · intro name
    show name ∈ dkeys (dinsertAll (logOf te apkId 0 tools) []) ↔ name ∈ tools
    rw [dinsertAll_keys_mem, logOf_keys]
    simp [dkeys]
  · exact dinsertAll_keys_nodup (logOf te apkId 0 tools) [] (by simp [dkeys])
  · intro i j hij sti stj hi hj
    rcases List.eq_nil_or_concat tools with rfl | hne
    · simp only [stAfter, List.take_nil, loopTools, Except.ok.injEq] at hi hj
      rw [← hi, ← hj]
      exact fun x h => h
    · have hn : tools.length ≠ 0 := by
        rcases hne with ⟨l, a, rfl⟩
        simp
      rw [stAfter, loopTools_spec te apkId tools.length hn (tools.take i) 0 (initSt r0),
        Except.ok.injEq] at hi
      rw [stAfter, loopTools_spec te apkId tools.length hn (tools.take j) 0 (initSt r0),
        Except.ok.injEq] at hj
      have hsplit : tools.take j = tools.take i ++ (tools.take j).drop i := by
        conv_lhs => rw [← List.take_append_drop i (tools.take j)]
        rw [List.take_take, min_eq_left hij]
      rw [← hi, ← hj]
      simp only [initSt]
      rw [hsplit, logOf_append, dinsertAll_append]
      exact dinsertAll_keys_sub _ _

/-! ## Claim C6 -/

/-- Counterexample to C6 as stated: for the request `["zzz"]` the
terminal error field is NOT exactly the concatenation of per-tool error
segments (`"zzz: Unknown tool: zzz"`); the code first appends an
`"Unknown tools: ..."` summary segment, so the field reads
`"Unknown tools: zzz; zzz: Unknown tool: zzz"`. -/
theorem C6_counterexample :
    Except.map (fun st => (st.record.status, st.record.error))
      (run_analysis_workflow (fun _ => defToolEnvs) "job1" ["zzz"] uploadRecord)
      = .ok ("failed", some "Unknown tools: zzz; zzz: Unknown tool: zzz") ∧
    some "Unknown tools: zzz; zzz: Unknown tool: zzz"
      ≠ some "zzz: Unknown tool: zzz" := by
  constructor
  · decide
  · decide

/-- **C6** (corrected): whenever the job is classified failed because at
least one recorded result is an error dict, the terminal error field is
`errJoin unknown results`: the per-tool segments "tool: message" of the
error entries of the final results dict, in insertion (= first
recording) order, joined by "; " — but *preceded by* an extra
"Unknown tools: <comma-joined names>" segment when any requested tool
was unrecognised, and replaced by the fallback text
"Analysis failed with errors" when the segment list is empty (possible
when a duplicate tool's error entry was later overwritten by a
success). -/
theorem C6_error_field (te : Nat → ToolEnvs) (apkId : String)
    (tools : List String) (r0 : JobRecord) :
    ∃ st, run_analysis_workflow te apkId tools r0 = .ok st ∧
      (st.log.any (fun p => p.2.hasError) = true →
        st.record.status = "failed" ∧
        st.record.error = some (errJoin (unkOf te apkId 0 tools)
          (dinsertAll (logOf te apkId 0 tools) []))) := by
  refine ⟨_, run_analysis_workflow_eq te apkId tools r0, ?_⟩
  rw [(finishSt_components tools (wfLoopSt te apkId tools r0)).1]
  intro hany
  have hb : ¬((wfLoopSt te apkId tools r0).twa = [] ∧
      tools.all (fun t => t ∈ pendingOnlyTools) = true) := by
    rintro ⟨-, hall⟩
    have hall2 : ∀ t ∈ tools, t = "frida" ∨ t = "mitmproxy" := by
      intro t ht
      have := List.all_eq_true.mp hall t ht
      simp [pendingOnlyTools] at this
      tauto
    obtain ⟨hlog, -⟩ := pendingOnly_loop te apkId tools 0 hall2
    rw [List.any_eq_true] at hany
    obtain ⟨p, hp, hperr⟩ := hany
    have := (hlog p hp).2
    rw [this] at hperr
    exact Bool.false_ne_true hperr
  have hcrit : (wfLoopSt te apkId tools r0).hasCrit = true := hany
  rw [finishSt_eq_2 tools _ hb hcrit]
  exact ⟨rfl, rfl⟩

/-! ## Claim C10 -/

/-- **C10** (corrected, first-run form): on a job's first run — started
from the freshly uploaded record — every state the store passes through
satisfies: while status is "processing" the results field is None, and
whenever the results field is set the status is already terminal
("failed" or "completed").  Per-tool results live in a local dict and
are attached only in the final step that also sets the terminal status.
(The unrestricted claim is false: a re-submitted job keeps the previous
run's results while "processing", see the counterexample.) -/
theorem C10_first_run_results_hidden (te : Nat → ToolEnvs) (apkId : String)
    (tools : List String) :
    ∃ st, run_analysis_workflow te apkId tools uploadRecord = .ok st ∧
      ∀ p ∈ st.trace,
        ((p : JobRecord × Mut).1.status = "processing" → p.1.results = none) ∧
        (p.1.results ≠ none → p.1.status = "failed" ∨ p.1.status = "completed") := by
  refine ⟨_, run_analysis_workflow_eq te apkId tools uploadRecord, ?_⟩
  have hwr := wfLoopSt_record te apkId tools uploadRecord
  have hA : ∀ p ∈ (initSt uploadRecord).trace,
      ((p : JobRecord × Mut).1.status = "processing" → p.1.results = none) ∧
      (p.1.results ≠ none → p.1.status = "failed" ∨ p.1.status = "completed") := by
    intro p hp
    simp only [initSt, uploadRecord, List.mem_cons, List.not_mem_nil, or_false] at hp
    rcases hp with rfl | rfl | rfl <;> exact ⟨fun _ => rfl, fun h => absurd rfl h⟩
  have hB : ∀ p ∈ tracePiece te apkId tools.length 0 (initSt uploadRecord).record tools,
      ((p : JobRecord × Mut).1.status = "processing" → p.1.results = none) ∧
      (p.1.results ≠ none → p.1.status = "failed" ∨ p.1.status = "completed") := by
    intro p hp
    obtain ⟨-, h2, -⟩ := tracePiece_fields te apkId tools.length tools 0
      (initSt uploadRecord).record p hp
    have hres : p.1.results = none := by rw [h2]; rfl
    exact ⟨fun _ => hres, fun h => absurd hres h⟩
  have hstat : (wfLoopSt te apkId tools uploadRecord).record.status = "processing" := hwr.1
  have hres0 : (wfLoopSt te apkId tools uploadRecord).record.results = none := by
    rw [hwr.2.1]
    rfl
  intro p hp
  by_cases hb1 : (wfLoopSt te apkId tools uploadRecord).twa = [] ∧
      tools.all (fun t => t ∈ pendingOnlyTools) = true
  · rw [finishSt_eq_1 tools _ hb1] at hp
    simp only [List.mem_append, List.mem_cons, List.not_mem_nil, or_false] at hp
    rcases hp with hp | rfl | rfl | rfl | rfl | rfl | rfl
    · rcases List.mem_append.mp (by simpa [wfLoopSt] using hp) with hp | hp
      · exact hA p hp
      · exact hB p hp
    · exact ⟨fun _ => hres0, fun h => absurd hres0 h⟩
    · exact ⟨fun _ => hres0, fun h => absurd hres0 h⟩
    · exact ⟨fun h => absurd (hstat ▸ h : "failed" = "processing") (by decide),
        fun _ => Or.inl rfl⟩
    · exact ⟨fun h => absurd (hstat ▸ h : "failed" = "processing") (by decide),
        fun _ => Or.inl rfl⟩
    · exact ⟨fun h => absurd (show ("failed" : String) = "processing" from h) (by decide),
        fun _ => Or.inl rfl⟩
    · exact ⟨fun h => absurd (show ("failed" : String) = "processing" from h) (by decide),
        fun _ => Or.inl rfl⟩
  · by_cases hb2 : (wfLoopSt te apkId tools uploadRecord).hasCrit = true
    · rw [finishSt_eq_2 tools _ hb1 hb2] at hp
      simp only [List.mem_append, List.mem_cons, List.not_mem_nil, or_false] at hp
      rcases hp with hp | rfl | rfl | rfl | rfl | rfl | rfl
      · rcases List.mem_append.mp (by simpa [wfLoopSt] using hp) with hp | hp
        · exact hA p hp
        · exact hB p hp
      · exact ⟨fun _ => hres0, fun h => absurd hres0 h⟩
      · exact ⟨fun _ => hres0, fun h => absurd hres0 h⟩
      · exact ⟨fun h => absurd (hstat ▸ h : "failed" = "processing") (by decide),
          fun _ => Or.inl rfl⟩
      · exact ⟨fun h => absurd (hstat ▸ h : "failed" = "processing") (by decide),
          fun _ => Or.inl rfl⟩
      · exact ⟨fun h => absurd (show ("failed" : String) = "processing" from h) (by decide),
          fun _ => Or.inl rfl⟩
      · exact ⟨fun h => absurd (show ("failed" : String) = "processing" from h) (by decide),
          fun _ => Or.inl rfl⟩
    · have hb2' : (wfLoopSt te apkId tools uploadRecord).hasCrit = false := by
        simpa using hb2
      rw [finishSt_eq_3 tools _ hb1 hb2'] at hp
      simp only [List.mem_append, List.mem_cons, List.not_mem_nil, or_false] at hp
      rcases hp with hp | rfl | rfl | rfl | rfl | rfl
      · rcases List.mem_append.mp (by simpa [wfLoopSt] using hp) with hp | hp
        · exact hA p hp
        · exact hB p hp
      · exact ⟨fun _ => hres0, fun h => absurd hres0 h⟩
      · exact ⟨fun _ => hres0, fun h => absurd hres0 h⟩
      · exact ⟨fun h => absurd (hstat ▸ h : "completed" = "processing") (by decide),
          fun _ => Or.inr rfl⟩
      · exact ⟨fun h => absurd (show ("completed" : String) = "processing" from h) (by decide),
          fun _ => Or.inr rfl⟩
      · exact ⟨fun h => absurd (show ("completed" : String) = "processing" from h) (by decide),
          fun _ => Or.inr rfl⟩

/-- Counterexample to C10 as stated: running the workflow a second time
for the same job id (permitted by `/analyze`, which only checks that the
record exists) re-enters "processing" without clearing the stored
results field, so a poller observes status "processing" together with
the previous run's results dict at the per-tool yield point. -/
theorem C10_counterexample :
    (do
      let st1 ← run_analysis_workflow (fun _ => defToolEnvs) "job1" ["frida"] uploadRecord
      let st2 ← run_analysis_workflow (fun _ => defToolEnvs) "job1" ["frida"] st1.record
      return st2.trace.any (fun p =>
        decide (p.1.status = "processing") && decide (¬ p.1.results = none)
          && decide (p.2 = Mut.obs)))
      = .ok true := by
  decide

/-! ## Claim C8 -/

/-- **C8** (corrected, observable part): although the store record is
mutated field-by-field, the workflow task only yields control at the
end-of-iteration sleep and at termination, so on a first run the
records a polling reader can observe are exactly: the uploaded record,
then one complete per-tool snapshot after each tool (status
"processing", that tool's float-computed progress, its name as
current_tool, no results, no error), then the complete terminal
record. -/
theorem obsOf_tail6 (r1 r2 r3 r4 r5 r6 : JobRecord) :
    obsOf [(r1, .mprogress), (r2, .mcurrent), (r3, .mstatus), (r4, .merror),
      (r5, .mresults), (r6, .obs)] = [r6] := by
  simp [obsOf]

theorem obsOf_tail5 (r1 r2 r3 r4 r5 : JobRecord) :
    obsOf [(r1, .mprogress), (r2, .mcurrent), (r3, .mstatus),
      (r4, .mresults), (r5, .obs)] = [r5] := by
  simp [obsOf]

theorem progressWritesOf_tail6 (r1 r2 r3 r4 r5 r6 : JobRecord) :
    progressWritesOf [(r1, .mprogress), (r2, .mcurrent), (r3, .mstatus), (r4, .merror),
      (r5, .mresults), (r6, .obs)] = [r1.progress] := by
  simp [progressWritesOf]

theorem progressWritesOf_tail5 (r1 r2 r3 r4 r5 : JobRecord) :
    progressWritesOf [(r1, .mprogress), (r2, .mcurrent), (r3, .mstatus),
      (r4, .mresults), (r5, .obs)] = [r1.progress] := by
  simp [progressWritesOf]

theorem obsOf_run_eq (te : Nat → ToolEnvs) (apkId : String)
    (tools : List String) :
    ∃ st, run_analysis_workflow te apkId tools uploadRecord = .ok st ∧
      obsOf st.trace = uploadRecord :: (specObs tools.length 0 tools ++ [st.record]) := by
  refine ⟨_, run_analysis_workflow_eq te apkId tools uploadRecord, ?_⟩
  have hpiece : obsOf (tracePiece te apkId tools.length 0 (initSt uploadRecord).record tools)
      = specObs tools.length 0 tools :=
    obsOf_tracePiece te apkId tools.length tools 0 (initSt uploadRecord).record rfl rfl rfl
  by_cases hb1 : (wfLoopSt te apkId tools uploadRecord).twa = [] ∧
      tools.all (fun t => t ∈ pendingOnlyTools) = true
  · rw [finishSt_eq_1 tools _ hb1]
    dsimp only [wfLoopSt]
    rw [obsOf_append, obsOf_append, obsOf_initSt, hpiece, obsOf_tail6]
    simp
  · by_cases hb2 : (wfLoopSt te apkId tools uploadRecord).hasCrit = true
    · rw [finishSt_eq_2 tools _ hb1 hb2]
      dsimp only [wfLoopSt]
      rw [obsOf_append, obsOf_append, obsOf_initSt, hpiece, obsOf_tail6]
      simp
    · have hb2' : (wfLoopSt te apkId tools uploadRecord).hasCrit = false := by
        simpa using hb2
      rw [finishSt_eq_3 tools _ hb1 hb2']
      dsimp only [wfLoopSt]
      rw [obsOf_append, obsOf_append, obsOf_initSt, hpiece, obsOf_tail5]
      simp

/-- **C8** (corrected, observable part): although the store record is
mutated field-by-field, the workflow task only yields control at the
end-of-iteration sleep and at termination, so on a first run the
records a polling reader can observe are exactly: the uploaded record,
then one complete per-tool snapshot after each tool (status
"processing", that tool's float-computed progress, its name as
current_tool, no results, no error), then the complete terminal
record. -/
theorem C8_observables_are_snapshots (te : Nat → ToolEnvs) (apkId : String)
    (tools : List String) :
    ∃ st, run_analysis_workflow te apkId tools uploadRecord = .ok st ∧
      obsOf st.trace = uploadRecord :: (specObs tools.length 0 tools ++ [st.record]) :=
  obsOf_run_eq te apkId tools

/-- Counterexample to C8 as stated: the store is not updated by whole-
record replaces.  For the request `["frida"]` the only complete step
snapshots are the uploaded record, the start-of-run record, the
after-tool-1 record and the terminal record; yet the store's state
sequence contains further records mixing fields of different steps
(e.g. progress already 100 and current_tool cleared while status is
still "processing", and status already "failed" while the error and
results fields are still unset), because each field assignment hits the
shared record object immediately and the terminal step performs no
store assignment at all. -/
theorem C8_counterexample :
    Except.map (fun st => st.trace.any (fun p =>
        decide (¬ (p.1 = uploadRecord ∨
          p.1 = ⟨"processing", 0, none, none, none⟩ ∨
          p.1 = ⟨"processing", 100, some "frida", none, none⟩ ∨
          p.1 = ⟨"failed", 100, none, some [("frida", ToolResult.pending fridaMsg)],
            some noAnalysisMsg⟩))))
      (run_analysis_workflow (fun _ => defToolEnvs) "job1" ["frida"] uploadRecord)
      = .ok true := by
  decide

theorem specObs_length (n : Nat) :
    ∀ (ts : List String) (idx : Nat), (specObs n idx ts).length = ts.length := by
  intro ts
  induction ts with
  | nil => intro idx; rfl
  | cons t ts ih => intro idx; simp [specObs, ih]

theorem specObs_progress (n : Nat) :
    ∀ (ts : List String) (idx j : Nat), j < ts.length →
      ∃ rec, (specObs n idx ts)[j]? = some rec ∧
        rec.progress = pyProgressN (idx + j + 1) n := by
  intro ts
  induction ts with
  | nil => intro idx j hj; simp at hj
  | cons t ts ih =>
    intro idx j hj
    cases j with
    | zero =>
      exact ⟨⟨"processing", pyProgressN (idx + 1) n, some t, none, none⟩,
        by simp [specObs], rfl⟩
    | succ j =>
      have hj' : j < ts.length := by simpa using hj
      obtain ⟨rec, h1, h2⟩ := ih (idx + 1) j hj'
      refine ⟨rec, by simpa [specObs, List.getElem?_cons_succ] using h1, ?_⟩
      rw [h2]
      congr 1
      omega

set_option maxRecDepth 100000 in
set_option maxHeartbeats 4000000 in
theorem pyProgressN_exact_small :
    ∀ n, n < 50 → ∀ k, k < 50 → 1 ≤ k → k ≤ n → pyProgressN k n = 100 * k / n := by
  decide

/-- **C3** (corrected): after the k-th tool of an n-tool request, the
recorded progress is the Python value `int(((k)/n)*100)` computed in
IEEE-754 binary64; this agrees with the integer percentage
`100 * k / n` rounded down whenever n is at most 49, but not in
general. -/
theorem C3_progress_after_k_tools (te : Nat → ToolEnvs) (apkId : String)
    (tools : List String) (k : Nat) (h1 : 1 ≤ k) (h2 : k ≤ tools.length) :
    ∃ st rec, run_analysis_workflow te apkId tools uploadRecord = .ok st ∧
      (obsOf st.trace)[k]? = some rec ∧
      rec.progress = pyProgressN k tools.length ∧
      (tools.length ≤ 49 → pyProgressN k tools.length = 100 * k / tools.length) := by
  obtain ⟨st, hrun, hobs⟩ := obsOf_run_eq te apkId tools
  rcases k with _ | j
  · omega
  · have hj : j < tools.length := by omega
    have hlen : j < (specObs tools.length 0 tools).length := by
      rw [specObs_length]
      exact hj
    obtain ⟨rec, hget, hprog⟩ := specObs_progress tools.length tools 0 j hj
    refine ⟨st, rec, hrun, ?_, ?_, ?_⟩
    · rw [hobs, List.getElem?_cons_succ, List.getElem?_append_left hlen]
      exact hget
    · rw [hprog]
      congr 1
      omega
    · intro hle
      exact pyProgressN_exact_small tools.length (by omega) (j + 1) (by omega) h1 h2

theorem C3_witness :
    1 ≤ 1 ∧ 1 ≤ (["jadx"] : List String).length ∧
      (∃ st rec,
        run_analysis_workflow (fun _ => defToolEnvs) "a" ["jadx"] uploadRecord = .ok st ∧
        (obsOf st.trace)[1]? = some rec ∧
        rec.progress = pyProgressN 1 (["jadx"] : List String).length ∧
        ((["jadx"] : List String).length ≤ 49 →
          pyProgressN 1 (["jadx"] : List String).length
            = 100 * 1 / (["jadx"] : List String).length)) :=
  ⟨by decide, by decide,
    C3_progress_after_k_tools (fun _ => defToolEnvs) "a" ["jadx"] 1 (by decide) (by decide)⟩

set_option maxRecDepth 100000 in
set_option maxHeartbeats 4000000 in
/-- Counterexample to C3 as literally stated: progress is not always
the rounded-down percentage.  For a request of 100 tools, the record
observable after the 29th tool carries progress 28, while the
percentage 100 * 29 / 100 rounds down to 29; the difference is the
binary64 rounding of 29/100 to a value just below 0.29. -/
theorem C3_counterexample :
    Except.map (fun st => ((obsOf st.trace)[29]?).map (fun r => r.progress))
      (run_analysis_workflow (fun _ => defToolEnvs) "j"
        (List.replicate 100 "frida") uploadRecord) = .ok (some (some 28)) ∧
    100 * 29 / 100 = 29 ∧ (28 : Nat) ≠ 29 := by
  decide

theorem wf_trace_status (te : Nat → ToolEnvs) (apkId : String) (tools : List String) :
    ∀ p ∈ (wfLoopSt te apkId tools uploadRecord).trace,
      (p : JobRecord × Mut).1.status = "pending" ∨ p.1.status = "processing" := by
  intro p hp
  dsimp only [wfLoopSt] at hp
  rw [List.mem_append] at hp
  rcases hp with hp | hp
  · simp only [initSt, List.mem_cons, List.not_mem_nil, or_false] at hp
    rcases hp with rfl | rfl | rfl
    · exact Or.inl rfl
    · exact Or.inr rfl
    · exact Or.inr rfl
  · refine Or.inr ?_
    rw [(tracePiece_fields te apkId tools.length tools 0 (initSt uploadRecord).record p hp).1]
    rfl

theorem progressWritesOf_run (te : Nat → ToolEnvs) (apkId : String) (tools : List String) :
    progressWritesOf (finishSt tools (wfLoopSt te apkId tools uploadRecord)).trace
      = 0 :: ((List.range tools.length).map (fun i => pyProgressN (i + 1) tools.length)
          ++ [100]) := by
  have hpiece := progressWrites_tracePiece te apkId tools.length tools 0
    (initSt uploadRecord).record
  by_cases hb1 : (wfLoopSt te apkId tools uploadRecord).twa = [] ∧
      tools.all (fun t => t ∈ pendingOnlyTools) = true
  · rw [finishSt_eq_1 tools _ hb1]
    dsimp only [wfLoopSt]
    rw [progressWritesOf_append, progressWritesOf_append, progressWritesOf_initSt, hpiece,
      progressWritesOf_tail6]
    simp
  · by_cases hb2 : (wfLoopSt te apkId tools uploadRecord).hasCrit = true
    · rw [finishSt_eq_2 tools _ hb1 hb2]
      dsimp only [wfLoopSt]
      rw [progressWritesOf_append, progressWritesOf_append, progressWritesOf_initSt, hpiece,
        progressWritesOf_tail6]
      simp
    · have hb2' : (wfLoopSt te apkId tools uploadRecord).hasCrit = false := by
        simpa using hb2
      rw [finishSt_eq_3 tools _ hb1 hb2']
      dsimp only [wfLoopSt]
      rw [progressWritesOf_append, progressWritesOf_append, progressWritesOf_initSt, hpiece,
        progressWritesOf_tail5]
      simp

theorem run_trace_split (te : Nat → ToolEnvs) (apkId : String) (tools : List String) :
    ∃ PRE SUF,
      (finishSt tools (wfLoopSt te apkId tools uploadRecord)).trace = PRE ++ SUF ∧
      (∀ p ∈ PRE, (p : JobRecord × Mut).1.status = "pending" ∨ p.1.status = "processing") ∧
      (∀ p ∈ SUF, ((p : JobRecord × Mut).1.status = "completed" ∨ p.1.status = "failed")
        ∧ p.1.progress = 100) := by
  have hR := (wfLoopSt_record te apkId tools uploadRecord).1
  by_cases hb1 : (wfLoopSt te apkId tools uploadRecord).twa = [] ∧
      tools.all (fun t => t ∈ pendingOnlyTools) = true
  · refine ⟨(wfLoopSt te apkId tools uploadRecord).trace ++
        [({(wfLoopSt te apkId tools uploadRecord).record with progress := 100}, .mprogress),
         ({(wfLoopSt te apkId tools uploadRecord).record with progress := 100, current_tool := none}, .mcurrent)],
      [({(wfLoopSt te apkId tools uploadRecord).record with progress := 100, current_tool := none, status := "failed"}, .mstatus),
       ({(wfLoopSt te apkId tools uploadRecord).record with progress := 100, current_tool := none, status := "failed", error := some noAnalysisMsg}, .merror),
       (⟨"failed", 100, none, some (wfLoopSt te apkId tools uploadRecord).results, some noAnalysisMsg⟩, .mresults),
       (⟨"failed", 100, none, some (wfLoopSt te apkId tools uploadRecord).results, some noAnalysisMsg⟩, .obs)], ?_, ?_, ?_⟩
    · rw [finishSt_eq_1 tools _ hb1]
      simp [List.append_assoc]
    · intro p hp
      rw [List.mem_append] at hp
      rcases hp with hp | hp
      · exact wf_trace_status te apkId tools p hp
      · simp only [List.mem_cons, List.not_mem_nil, or_false] at hp
        rcases hp with rfl | rfl
        · exact Or.inr hR
        · exact Or.inr hR
    · intro p hp
      simp only [List.mem_cons, List.not_mem_nil, or_false] at hp
      rcases hp with rfl | rfl | rfl | rfl
      all_goals exact ⟨Or.inr rfl, rfl⟩
  · by_cases hb2 : (wfLoopSt te apkId tools uploadRecord).hasCrit = true
    · refine ⟨(wfLoopSt te apkId tools uploadRecord).trace ++
          [({(wfLoopSt te apkId tools uploadRecord).record with progress := 100}, .mprogress),
           ({(wfLoopSt te apkId tools uploadRecord).record with progress := 100, current_tool := none}, .mcurrent)],
        [({(wfLoopSt te apkId tools uploadRecord).record with progress := 100, current_tool := none, status := "failed"}, .mstatus),
         ({(wfLoopSt te apkId tools uploadRecord).record with progress := 100, current_tool := none, status := "failed", error := some (errJoin (wfLoopSt te apkId tools uploadRecord).unknown (wfLoopSt te apkId tools uploadRecord).results)}, .merror),
         (⟨"failed", 100, none, some (wfLoopSt te apkId tools uploadRecord).results, some (errJoin (wfLoopSt te apkId tools uploadRecord).unknown (wfLoopSt te apkId tools uploadRecord).results)⟩, .mresults),
         (⟨"failed", 100, none, some (wfLoopSt te apkId tools uploadRecord).results, some (errJoin (wfLoopSt te apkId tools uploadRecord).unknown (wfLoopSt te apkId tools uploadRecord).results)⟩, .obs)], ?_, ?_, ?_⟩
      · rw [finishSt_eq_2 tools _ hb1 hb2]
        simp [List.append_assoc]
      · intro p hp
        rw [List.mem_append] at hp
        rcases hp with hp | hp
        · exact wf_trace_status te apkId tools p hp
        · simp only [List.mem_cons, List.not_mem_nil, or_false] at hp
          rcases hp with rfl | rfl
          · exact Or.inr hR
          · exact Or.inr hR
      · intro p hp
        simp only [List.mem_cons, List.not_mem_nil, or_false] at hp
        rcases hp with rfl | rfl | rfl | rfl
        all_goals exact ⟨Or.inr rfl, rfl⟩
    · have hb2' : (wfLoopSt te apkId tools uploadRecord).hasCrit = false := by
        simpa using hb2
      refine ⟨(wfLoopSt te apkId tools uploadRecord).trace ++
          [({(wfLoopSt te apkId tools uploadRecord).record with progress := 100}, .mprogress),
           ({(wfLoopSt te apkId tools uploadRecord).record with progress := 100, current_tool := none}, .mcurrent)],
        [({(wfLoopSt te apkId tools uploadRecord).record with progress := 100, current_tool := none, status := "completed"}, .mstatus),
         (⟨"completed", 100, none, some (wfLoopSt te apkId tools uploadRecord).results, (wfLoopSt te apkId tools uploadRecord).record.error⟩, .mresults),
         (⟨"completed", 100, none, some (wfLoopSt te apkId tools uploadRecord).results, (wfLoopSt te apkId tools uploadRecord).record.error⟩, .obs)], ?_, ?_, ?_⟩
      · rw [finishSt_eq_3 tools _ hb1 hb2']
        simp [List.append_assoc]
      · intro p hp
        rw [List.mem_append] at hp
        rcases hp with hp | hp
        · exact wf_trace_status te apkId tools p hp
        · simp only [List.mem_cons, List.not_mem_nil, or_false] at hp
          rcases hp with rfl | rfl
          · exact Or.inr hR
          · exact Or.inr hR
      · intro p hp
        simp only [List.mem_cons, List.not_mem_nil, or_false] at hp
        rcases hp with rfl | rfl | rfl
        all_goals exact ⟨Or.inl rfl, rfl⟩

/-- **C4** (confirmed): over a single run of the workflow the values
successively written to the record's progress field are monotonically
non-decreasing (0, then the per-tool percentages, then 100); every
state of the record whose status is terminal ("completed" or "failed")
has progress exactly 100; and from the first terminal state onward
every later state of the record is still terminal with progress 100,
so the progress is never changed again. -/
theorem C4_progress_monotone (te : Nat → ToolEnvs) (apkId : String) (tools : List String) :
    ∃ st, run_analysis_workflow te apkId tools uploadRecord = .ok st ∧
      List.Chain' (fun a b => a ≤ b) (progressWritesOf st.trace) ∧
      (∀ p ∈ st.trace, ((p : JobRecord × Mut).1.status = "completed" ∨
        p.1.status = "failed") → p.1.progress = 100) ∧
      st.trace.Pairwise (fun p q =>
        (p.1.status = "completed" ∨ p.1.status = "failed") →
        ((q.1.status = "completed" ∨ q.1.status = "failed") ∧ q.1.progress = 100)) := by
  refine ⟨_, run_analysis_workflow_eq te apkId tools uploadRecord, ?_, ?_, ?_⟩
  · rw [progressWritesOf_run]
    rcases tools with _ | ⟨t, ts⟩
    · simp
    · have hn1 : 1 ≤ (t :: ts).length := by simp
      rw [List.chain'_cons']
      constructor
      · intro h hh
        exact Nat.zero_le h
      · rw [List.chain'_append]
        refine ⟨?_, by simp, ?_⟩
        · rw [List.chain'_map, List.length_cons, List.chain'_range_succ]
          intro m hm
          exact pyProgressN_mono (m + 1) (m + 1 + 1) (t :: ts).length (by omega) (by omega) hn1
        · intro x hx y hy
          have hx' := List.mem_of_mem_getLast? hx
          simp only [List.mem_map, List.mem_range] at hx'
          obtain ⟨i, hi, rfl⟩ := hx'
          simp only [List.head?_cons, Option.mem_def, Option.some.injEq] at hy
          subst hy
          exact pyProgressN_le_100 (i + 1) (t :: ts).length (by omega) hi
  · obtain ⟨PRE, SUF, htr, hpre, hsuf⟩ := run_trace_split te apkId tools
    rw [htr]
    intro p hp hterm
    rcases List.mem_append.mp hp with h | h
    · rcases hpre p h with h' | h' <;> rcases hterm with ht | ht <;>
        exact absurd (h'.symm.trans ht) (by decide)
    · exact (hsuf p h).2
  · obtain ⟨PRE, SUF, htr, hpre, hsuf⟩ := run_trace_split te apkId tools
    rw [htr, List.pairwise_append]
    refine ⟨List.pairwise_of_forall_mem_list ?_, List.pairwise_of_forall_mem_list ?_, ?_⟩
    · intro a ha b hb hterm
      rcases hpre a ha with h' | h' <;> rcases hterm with ht | ht <;>
        exact absurd (h'.symm.trans ht) (by decide)
    · intro a ha b hb _
      exact hsuf b hb
    · intro a ha b hb _
      exact hsuf b hb
